import Mathlib

/-!
Verification of the ush acoustic-modem core (src/src/modulation.rs,
src/src/protocol.rs) against its natural-language specification.

Conventions of the embedding:
* Rust machine integers (u8, u16, u32, usize) are modelled as `Nat`, with
  wrap-around written explicitly as `% 2 ^ w` where the source performs a
  narrowing cast.
* Byte buffers (`Vec<u8>`, `&[u8]`) are `List Nat`; audio sample buffers
  (`Vec<f32>`, `&[f32]`) are `List ℝ`, exact real arithmetic standing in for
  `f32` arithmetic.  Config fields that are `f32` in the source are modelled
  as exact rationals.
* Fallible Rust functions returning `UshResult<T>` become `Except UshError T`.
* The serde_json serializer and parser are an external crate, not code of
  this repository; following the spec (section 4.5: "Any encoding that
  round-trips these fields is acceptable"), serialization of headers and
  messages and deserialization of message bodies are taken as parameters
  (`header_bytes`, `to_vec`, `from_slice`) of the functions that use them.
  The CRC-32 itself is implemented concretely from the spec's parameters
  (ISO-HDLC: reflected, polynomial 0xEDB88320, initial and final 0xFFFFFFFF),
  which is exactly what the `crc` crate computes for `CRC_32_ISO_HDLC`.
-/

/-! ## Error type (src/src/error.rs)

Only the variants reachable from the modulation and protocol core are
modelled; the audio / IO variants wrap external library errors. -/

inductive UshError where
  | Protocol (message : String)
  | Decoding (message : String)
  | Encoding (message : String)
  | CrcMismatch (expected actual : Nat)
  | Config (message : String)
  deriving DecidableEq, Repr

/-! ## Message schema (src/src/protocol.rs lines 13-35) -/

inductive MessageType where
  | Text
  | File
  | Ack
  | Ping
  deriving DecidableEq, Repr

structure MessageHeader where
  version : Nat
  message_type : MessageType
  sequence_number : Nat
  timestamp : Nat
  payload_length : Nat
  deriving DecidableEq, Repr

structure Message where
  header : MessageHeader
  payload : List Nat
  checksum : Nat
  deriving DecidableEq, Repr

/-! ## CRC-32 ISO-HDLC

Modelled from the spec: the `crc` crate is external; spec section 4.5 fixes
the algorithm as "polynomial CRC-32 ISO-HDLC (reflected, initial 0xFFFFFFFF,
final XOR 0xFFFFFFFF)", i.e. the standard reflected table-less algorithm
with reversed polynomial 0xEDB88320. -/

def crc32_bit_step (c : Nat) : Nat :=
  if c % 2 = 1 then Nat.xor (c / 2) 0xEDB88320 else c / 2

def crc32_byte_step (c b : Nat) : Nat :=
  crc32_bit_step^[8] (Nat.xor c b)

def crc32 (data : List Nat) : Nat :=
  Nat.xor (data.foldl crc32_byte_step 0xFFFFFFFF) 0xFFFFFFFF

/-- Embedding of `Message::calculate_checksum` (protocol.rs lines 117-130):
CRC-32 of the serialized header bytes followed by the raw payload bytes.
`header_bytes` stands for `serde_json::to_vec(header)`; the serialization of
this header type never fails, so the `UshResult` wrapper is dropped. -/
def Message.calculate_checksum (header_bytes : MessageHeader → List Nat)
    (header : MessageHeader) (payload : List Nat) : Nat :=
  crc32 (header_bytes header ++ payload)

/-- Embedding of `Message::verify_checksum` (protocol.rs lines 132-135). -/
def Message.verify_checksum (header_bytes : MessageHeader → List Nat)
    (m : Message) : Bool :=
  Message.calculate_checksum header_bytes m.header m.payload == m.checksum

/-! ## Frame encoder (src/src/protocol.rs lines 7-11 and 163-190) -/

def PREAMBLE : List Nat := [0xAA, 0xAA, 0xAA, 0xAA]

def START_DELIMITER : List Nat := [0x7E, 0x7E]

def END_DELIMITER : List Nat := [0x7E, 0x7E]

def MAX_MESSAGE_LENGTH : Nat := 1024

/-- Big-endian bytes of a u16 value (`u16::to_be_bytes`); the argument is
already reduced mod 2^16 by the caller (the `as u16` cast). -/
def u16_be_bytes (v : Nat) : List Nat := [v / 256, v % 256]

/-- Embedding of `ProtocolEncoder::encode_message` (protocol.rs lines
163-190).  `to_vec` stands for `serde_json::to_vec(message)`, which never
fails on this message type; `length as u16` is the explicit `% 2 ^ 16`. -/
def encode_message (to_vec : Message → List Nat) (message : Message) :
    List Nat :=
  PREAMBLE ++ PREAMBLE
    ++ START_DELIMITER
    ++ u16_be_bytes ((to_vec message).length % 2 ^ 16)
    ++ to_vec message
    ++ END_DELIMITER

/-! ## Streaming frame decoder (src/src/protocol.rs lines 209-373) -/

inductive DecoderState where
  | WaitingForPreamble
  | WaitingForStart
  | ReadingLength
  | ReadingMessage
  | WaitingForEnd
  deriving DecidableEq, Repr

structure ProtocolDecoder where
  buffer : List Nat
  state : DecoderState
  expected_length : Nat
  deriving DecidableEq, Repr

/-- Embedding of `ProtocolDecoder::new` (protocol.rs lines 226-232). -/
def ProtocolDecoder.new : ProtocolDecoder :=
  { buffer := [], state := .WaitingForPreamble, expected_length := 0 }

/-- Embedding of `ProtocolDecoder::reset` (protocol.rs lines 368-372). -/
def ProtocolDecoder.reset (_dec : ProtocolDecoder) : ProtocolDecoder :=
  { buffer := [], state := .WaitingForPreamble, expected_length := 0 }

/-- Embedding of `ProtocolDecoder::find_preamble` (protocol.rs lines
358-366): the first index whose 8-byte window equals the doubled preamble,
scanning indices `0 ..= buffer.len() - 8`. -/
def find_preamble (buffer : List Nat) : Option Nat :=
  if buffer.length < (PREAMBLE ++ PREAMBLE).length then none
  else
    (List.range (buffer.length - (PREAMBLE ++ PREAMBLE).length + 1)).find?
      (fun i => (buffer.drop i).take (PREAMBLE ++ PREAMBLE).length
        == PREAMBLE ++ PREAMBLE)

/-- Positions returned by `find_preamble` lie in the scanned range
`0 ..= buffer.len() - 8`, and the buffer holds at least 8 bytes. -/
theorem find_preamble_bounds {buffer : List Nat} {pos : Nat}
    (h : find_preamble buffer = some pos) :
    8 ≤ buffer.length ∧ pos ≤ buffer.length - 8 := by
  unfold find_preamble at h
  split at h
  · exact absurd h (by simp)
  · rename_i hlen
    have hmem := List.mem_of_find?_eq_some h
    rw [List.mem_range] at hmem
    simp only [List.length_append] at hlen hmem ⊢
    norm_num [PREAMBLE] at hlen hmem ⊢
    omega

/-- Embedding of `ProtocolDecoder::try_decode_message` (protocol.rs lines
266-356).  `from_slice` stands for `serde_json::from_slice::<Message>`; a
parse failure surfaces as the `Decoding` error of the source (the source
interpolates the serde error text into the message, which is elided here).
In the `ReadingMessage` arm the source first sets the state to
`WaitingForEnd` and then overwrites it with `WaitingForPreamble` on every
path before returning; the embedding records the net effect.  The source
locals `expected` (the decoded big-endian length), `message_bytes`
(`buffer[..expected]`) and the post-drain buffer are written inline. -/
def try_decode_message (from_slice : List Nat → Option Message)
    (dec : ProtocolDecoder) :
    Option (Except UshError Message) × ProtocolDecoder :=
  match hst : dec.state with
  | .WaitingForPreamble =>
    match hfp : find_preamble dec.buffer with
    | some pos =>
        try_decode_message from_slice
          { dec with buffer := dec.buffer.drop pos, state := .WaitingForStart }
    | none => (none, dec)
  | .WaitingForStart =>
    if PREAMBLE.length * 2 + START_DELIMITER.length ≤ dec.buffer.length then
      if (dec.buffer.drop (PREAMBLE.length * 2)).take START_DELIMITER.length
          = START_DELIMITER then
        try_decode_message from_slice
          { dec with
              buffer := dec.buffer.drop
                (PREAMBLE.length * 2 + START_DELIMITER.length),
              state := .ReadingLength }
      else
        try_decode_message from_slice
          { dec with
              buffer := dec.buffer.drop 1,
              state := .WaitingForPreamble }
    else (none, dec)
  | .ReadingLength =>
    if 2 ≤ dec.buffer.length then
      if MAX_MESSAGE_LENGTH * 2 < dec.buffer.getD 0 0 * 256 + dec.buffer.getD 1 0 then
        try_decode_message from_slice
          { dec with
              buffer := dec.buffer.drop 1,
              state := .WaitingForPreamble }
      else
        try_decode_message from_slice
          { dec with
              buffer := dec.buffer.drop 2,
              state := .ReadingMessage,
              expected_length := dec.buffer.getD 0 0 * 256 + dec.buffer.getD 1 0 }
    else (none, dec)
  | .ReadingMessage =>
    if dec.expected_length ≤ dec.buffer.length then
      match from_slice (dec.buffer.take dec.expected_length) with
      | some message =>
        if END_DELIMITER.length ≤ (dec.buffer.drop dec.expected_length).length ∧
            (dec.buffer.drop dec.expected_length).take END_DELIMITER.length
              = END_DELIMITER then
          (some (Except.ok message),
            { dec with
                buffer := (dec.buffer.drop dec.expected_length).drop
                  END_DELIMITER.length,
                state := .WaitingForPreamble })
        else
          (some (Except.ok message),
            { dec with
                buffer := dec.buffer.drop dec.expected_length,
                state := .WaitingForPreamble })
      | none =>
        (some (Except.error (UshError.Decoding
            ("Failed to deserialize message"))),
          { dec with
              buffer := dec.buffer.drop dec.expected_length,
              state := .WaitingForPreamble })
    else (none, dec)
  | .WaitingForEnd =>
    if END_DELIMITER.length ≤ dec.buffer.length then
      if dec.buffer.take END_DELIMITER.length = END_DELIMITER then
        try_decode_message from_slice
          { dec with
              buffer := dec.buffer.drop END_DELIMITER.length,
              state := .WaitingForPreamble }
      else
        try_decode_message from_slice
          { dec with
              buffer := dec.buffer.drop 1,
              state := .WaitingForPreamble }
    else (none, dec)
termination_by
  (dec.buffer.length, if dec.state = .WaitingForPreamble then 1 else 0)
decreasing_by
  · rcases find_preamble_bounds hfp with ⟨h8, hpos⟩
    rcases Nat.eq_zero_or_pos pos with h0 | h0
    · subst h0
      simp only [List.drop_zero]
      exact Prod.Lex.right _ (by simp [hst])
    · exact Prod.Lex.left _ _ (by simp only [List.length_drop]; omega)
  all_goals exact Prod.Lex.left _ _ (by
    simp only [List.length_drop, PREAMBLE, START_DELIMITER, END_DELIMITER,
      MAX_MESSAGE_LENGTH, List.length_append, List.length_cons,
      List.length_nil] at *
    omega)

/-! Unfolding equations of `try_decode_message`, one per decoder state.
They restate the branches of the definition in a rewriting-friendly form. -/

theorem try_decode_message_preamble_some (from_slice : List Nat → Option Message)
    (buf : List Nat) (exp pos : Nat) (hfp : find_preamble buf = some pos) :
    try_decode_message from_slice ⟨buf, .WaitingForPreamble, exp⟩ =
      try_decode_message from_slice ⟨buf.drop pos, .WaitingForStart, exp⟩ := by
  rw [try_decode_message.eq_def]
  dsimp only
  split
  · rename_i pos2 hfp2
    rw [hfp] at hfp2
    cases hfp2
    rfl
  · rename_i hfp2
    rw [hfp] at hfp2
    cases hfp2

theorem try_decode_message_preamble_none (from_slice : List Nat → Option Message)
    (buf : List Nat) (exp : Nat) (hfp : find_preamble buf = none) :
    try_decode_message from_slice ⟨buf, .WaitingForPreamble, exp⟩ =
      (none, ⟨buf, .WaitingForPreamble, exp⟩) := by
  rw [try_decode_message.eq_def]
  dsimp only
  split
  · rename_i pos2 hfp2
    rw [hfp] at hfp2
    cases hfp2
  · rfl

theorem try_decode_message_start (from_slice : List Nat → Option Message)
    (buf : List Nat) (exp : Nat) :
    try_decode_message from_slice ⟨buf, .WaitingForStart, exp⟩ =
      if PREAMBLE.length * 2 + START_DELIMITER.length ≤ buf.length then
        if (buf.drop (PREAMBLE.length * 2)).take START_DELIMITER.length
            = START_DELIMITER then
          try_decode_message from_slice
            ⟨buf.drop (PREAMBLE.length * 2 + START_DELIMITER.length),
              .ReadingLength, exp⟩
        else
          try_decode_message from_slice ⟨buf.drop 1, .WaitingForPreamble, exp⟩
      else (none, ⟨buf, .WaitingForStart, exp⟩) := by
  rw [try_decode_message.eq_def]

theorem try_decode_message_reading_length (from_slice : List Nat → Option Message)
    (buf : List Nat) (exp : Nat) :
    try_decode_message from_slice ⟨buf, .ReadingLength, exp⟩ =
      if 2 ≤ buf.length then
        if MAX_MESSAGE_LENGTH * 2 < buf.getD 0 0 * 256 + buf.getD 1 0 then
          try_decode_message from_slice ⟨buf.drop 1, .WaitingForPreamble, exp⟩
        else
          try_decode_message from_slice
            ⟨buf.drop 2, .ReadingMessage, buf.getD 0 0 * 256 + buf.getD 1 0⟩
      else (none, ⟨buf, .ReadingLength, exp⟩) := by
  rw [try_decode_message.eq_def]

theorem try_decode_message_reading_message (from_slice : List Nat → Option Message)
    (buf : List Nat) (exp : Nat) :
    try_decode_message from_slice ⟨buf, .ReadingMessage, exp⟩ =
      if exp ≤ buf.length then
        match from_slice (buf.take exp) with
        | some message =>
          if END_DELIMITER.length ≤ (buf.drop exp).length ∧
              (buf.drop exp).take END_DELIMITER.length = END_DELIMITER then
            (some (Except.ok message),
              ⟨(buf.drop exp).drop END_DELIMITER.length, .WaitingForPreamble, exp⟩)
          else
            (some (Except.ok message), ⟨buf.drop exp, .WaitingForPreamble, exp⟩)
        | none =>
          (some (Except.error (UshError.Decoding
              ("Failed to deserialize message"))),
            ⟨buf.drop exp, .WaitingForPreamble, exp⟩)
      else (none, ⟨buf, .ReadingMessage, exp⟩) := by
  rw [try_decode_message.eq_def]

theorem try_decode_message_waiting_end (from_slice : List Nat → Option Message)
    (buf : List Nat) (exp : Nat) :
    try_decode_message from_slice ⟨buf, .WaitingForEnd, exp⟩ =
      if END_DELIMITER.length ≤ buf.length then
        if buf.take END_DELIMITER.length = END_DELIMITER then
          try_decode_message from_slice
            ⟨buf.drop END_DELIMITER.length, .WaitingForPreamble, exp⟩
        else
          try_decode_message from_slice ⟨buf.drop 1, .WaitingForPreamble, exp⟩
      else (none, ⟨buf, .WaitingForEnd, exp⟩) := by
  rw [try_decode_message.eq_def]

/-- A call of `try_decode_message` that yields some result (a message or a
parse error) always leaves the decoder in `WaitingForPreamble` and never
grows the buffer; it strictly shrinks the buffer unless it started directly
in `ReadingMessage`. -/
theorem try_decode_message_some_shrinks
    (from_slice : List Nat → Option Message) (dec : ProtocolDecoder) :
    ∀ r dec2, try_decode_message from_slice dec = (some r, dec2) →
      dec2.state = DecoderState.WaitingForPreamble ∧
        (dec2.buffer.length < dec.buffer.length ∨
          (dec.state = DecoderState.ReadingMessage ∧
            dec2.buffer.length ≤ dec.buffer.length)) := by
  induction dec using (try_decode_message.induct from_slice)
  case case1 x hstate pos hfp ih =>
    obtain ⟨buf, st, e⟩ := x
    dsimp only at hstate hfp ih ⊢
    subst hstate
    intro r dec2 h
    rw [try_decode_message_preamble_some from_slice buf e pos hfp] at h
    rcases ih r dec2 h with ⟨hs, hlt | ⟨hrm, _⟩⟩
    · refine ⟨hs, Or.inl ?_⟩
      simp only [List.length_drop] at hlt
      omega
    · exact absurd hrm (by simp)
  case case2 x hstate hfp =>
    obtain ⟨buf, st, e⟩ := x
    dsimp only at hstate hfp ⊢
    subst hstate
    intro r dec2 h
    rw [try_decode_message_preamble_none from_slice buf e hfp] at h
    simp at h
  case case3 x hstate hlen hstart ih =>
    obtain ⟨buf, st, e⟩ := x
    dsimp only at hstate hlen hstart ih ⊢
    subst hstate
    intro r dec2 h
    rw [try_decode_message_start, if_pos hlen, if_pos hstart] at h
    rcases ih r dec2 h with ⟨hs, hlt | ⟨hrm, _⟩⟩
    · refine ⟨hs, Or.inl ?_⟩
      simp only [List.length_drop] at hlt
      simp only [PREAMBLE, START_DELIMITER, List.length_append,
        List.length_cons, List.length_nil] at hlen
      omega
    · exact absurd hrm (by simp)
  case case4 x hstate hlen hstart ih =>
    obtain ⟨buf, st, e⟩ := x
    dsimp only at hstate hlen hstart ih ⊢
    subst hstate
    intro r dec2 h
    rw [try_decode_message_start, if_pos hlen, if_neg hstart] at h
    rcases ih r dec2 h with ⟨hs, hlt | ⟨hrm, _⟩⟩
    · refine ⟨hs, Or.inl ?_⟩
      simp only [List.length_drop] at hlt
      simp only [PREAMBLE, START_DELIMITER, List.length_append,
        List.length_cons, List.length_nil] at hlen
      omega
    · exact absurd hrm (by simp)
  case case5 x hstate hlen =>
    obtain ⟨buf, st, e⟩ := x
    dsimp only at hstate hlen ⊢
    subst hstate
    intro r dec2 h
    rw [try_decode_message_start, if_neg hlen] at h
    simp at h
  case case6 x hstate hlen hbig ih =>
    obtain ⟨buf, st, e⟩ := x
    dsimp only at hstate hlen hbig ih ⊢
    subst hstate
    intro r dec2 h
    rw [try_decode_message_reading_length, if_pos hlen, if_pos hbig] at h
    rcases ih r dec2 h with ⟨hs, hlt | ⟨hrm, _⟩⟩
    · refine ⟨hs, Or.inl ?_⟩
      simp only [List.length_drop] at hlt
      omega
    · exact absurd hrm (by simp)
  case case7 x hstate hlen hbig ih =>
    obtain ⟨buf, st, e⟩ := x
    dsimp only at hstate hlen hbig ih ⊢
    subst hstate
    intro r dec2 h
    rw [try_decode_message_reading_length, if_pos hlen, if_neg hbig] at h
    rcases ih r dec2 h with ⟨hs, hlt | ⟨_, hle⟩⟩
    · refine ⟨hs, Or.inl ?_⟩
      simp only [List.length_drop] at hlt
      omega
    · refine ⟨hs, Or.inl ?_⟩
      simp only [List.length_drop] at hle
      omega
  case case8 x hstate hlen =>
    obtain ⟨buf, st, e⟩ := x
    dsimp only at hstate hlen ⊢
    subst hstate
    intro r dec2 h
    rw [try_decode_message_reading_length, if_neg hlen] at h
    simp at h
  case case9 x hstate hlen message hparse hdelim =>
    obtain ⟨buf, st, e⟩ := x
    dsimp only at hstate hlen hparse hdelim ⊢
    subst hstate
    intro r dec2 h
    rw [try_decode_message_reading_message, if_pos hlen, hparse] at h
    dsimp only at h
    rw [if_pos hdelim] at h
    rw [Prod.mk.injEq] at h
    obtain ⟨hr, hd⟩ := h
    subst hd
    refine ⟨rfl, Or.inr ⟨rfl, ?_⟩⟩
    simp only [List.length_drop]
    omega
  case case10 x hstate hlen message hparse hdelim =>
    obtain ⟨buf, st, e⟩ := x
    dsimp only at hstate hlen hparse hdelim ⊢
    subst hstate
    intro r dec2 h
    rw [try_decode_message_reading_message, if_pos hlen, hparse] at h
    dsimp only at h
    rw [if_neg hdelim] at h
    rw [Prod.mk.injEq] at h
    obtain ⟨hr, hd⟩ := h
    subst hd
    refine ⟨rfl, Or.inr ⟨rfl, ?_⟩⟩
    simp only [List.length_drop]
    omega
  case case11 x hstate hlen hparse =>
    obtain ⟨buf, st, e⟩ := x
    dsimp only at hstate hlen hparse ⊢
    subst hstate
    intro r dec2 h
    rw [try_decode_message_reading_message, if_pos hlen, hparse] at h
    dsimp only at h
    rw [Prod.mk.injEq] at h
    obtain ⟨hr, hd⟩ := h
    subst hd
    refine ⟨rfl, Or.inr ⟨rfl, ?_⟩⟩
    simp only [List.length_drop]
    omega
  case case12 x hstate hlen =>
    obtain ⟨buf, st, e⟩ := x
    dsimp only at hstate hlen ⊢
    subst hstate
    intro r dec2 h
    rw [try_decode_message_reading_message, if_neg hlen] at h
    simp at h
  case case13 x hstate hlen htake ih =>
    obtain ⟨buf, st, e⟩ := x
    dsimp only at hstate hlen htake ih ⊢
    subst hstate
    intro r dec2 h
    rw [try_decode_message_waiting_end, if_pos hlen, if_pos htake] at h
    rcases ih r dec2 h with ⟨hs, hlt | ⟨hrm, _⟩⟩
    · refine ⟨hs, Or.inl ?_⟩
      simp only [List.length_drop] at hlt
      simp only [END_DELIMITER, List.length_cons, List.length_nil] at hlen
      omega
    · exact absurd hrm (by simp)
  case case14 x hstate hlen htake ih =>
    obtain ⟨buf, st, e⟩ := x
    dsimp only at hstate hlen htake ih ⊢
    subst hstate
    intro r dec2 h
    rw [try_decode_message_waiting_end, if_pos hlen, if_neg htake] at h
    rcases ih r dec2 h with ⟨hs, hlt | ⟨hrm, _⟩⟩
    · refine ⟨hs, Or.inl ?_⟩
      simp only [List.length_drop] at hlt
      simp only [END_DELIMITER, List.length_cons, List.length_nil] at hlen
      omega
    · exact absurd hrm (by simp)
  case case15 x hstate hlen =>
    obtain ⟨buf, st, e⟩ := x
    dsimp only at hstate hlen ⊢
    subst hstate
    intro r dec2 h
    rw [try_decode_message_waiting_end, if_neg hlen] at h
    simp at h

/-- Embedding of the `while let Some(message) = self.try_decode_message()`
loop of `ProtocolDecoder::feed_data` (protocol.rs lines 238-254): decoded
messages pass the checksum filter before being collected; on a decode error
the state is reset to `WaitingForPreamble` (it already is, see
`try_decode_message_some_shrinks`) and the loop continues. -/
def feed_data_loop (from_slice : List Nat → Option Message)
    (header_bytes : MessageHeader → List Nat) (dec : ProtocolDecoder) :
    List Message × ProtocolDecoder :=
  match h : try_decode_message from_slice dec with
  | (none, dec2) => ([], dec2)
  | (some (Except.ok msg), dec2) =>
    if Message.verify_checksum header_bytes msg then
      let r := feed_data_loop from_slice header_bytes dec2
      (msg :: r.1, r.2)
    else
      feed_data_loop from_slice header_bytes dec2
  | (some (Except.error _), dec2) =>
    feed_data_loop from_slice header_bytes
      { dec2 with state := .WaitingForPreamble }
termination_by 2 * dec.buffer.length +
  (if dec.state = DecoderState.ReadingMessage then 1 else 0)
decreasing_by
  · rcases try_decode_message_some_shrinks from_slice dec _ _ h with ⟨hs, hd⟩
    rcases hd with h1 | ⟨h2, h3⟩
    · simp only [hs]
      by_cases hw : dec.state = DecoderState.ReadingMessage <;> simp [hw] <;> omega
    · simp only [hs, h2]
      simp
      omega
  · rcases try_decode_message_some_shrinks from_slice dec _ _ h with ⟨hs, hd⟩
    rcases hd with h1 | ⟨h2, h3⟩
    · simp only [hs]
      by_cases hw : dec.state = DecoderState.ReadingMessage <;> simp [hw] <;> omega
    · simp only [hs, h2]
      simp
      omega
  · rcases try_decode_message_some_shrinks from_slice dec _ _ h with ⟨hs, hd⟩
    rcases hd with h1 | ⟨h2, h3⟩
    · by_cases hw : dec.state = DecoderState.ReadingMessage <;> simp [hw] <;> omega
    · simp only [h2]
      simp
      omega

/-- Embedding of `ProtocolDecoder::feed_data` (protocol.rs lines 234-264):
append the incoming chunk, run the decode loop, then apply the buffer bound
(drop to the newest 5000 bytes and reset the state when more than 10000
bytes remain). -/
def feed_data (from_slice : List Nat → Option Message)
    (header_bytes : MessageHeader → List Nat) (dec : ProtocolDecoder)
    (data : List Nat) : List Message × ProtocolDecoder :=
  let r := feed_data_loop from_slice header_bytes
    { dec with buffer := dec.buffer ++ data }
  if 10000 < r.2.buffer.length then
    (r.1,
      { r.2 with
          buffer := r.2.buffer.drop (r.2.buffer.length - 5000),
          state := .WaitingForPreamble })
  else r

/-- Feeding a sequence of chunks in order, collecting all returned
messages; used to compare decoder runs starting from different states. -/
def feed_data_seq (from_slice : List Nat → Option Message)
    (header_bytes : MessageHeader → List Nat) (dec : ProtocolDecoder)
    (chunks : List (List Nat)) : List Message × ProtocolDecoder :=
  chunks.foldl
    (fun acc c =>
      let r := feed_data from_slice header_bytes acc.2 c
      (acc.1 ++ r.1, r.2))
    ([], dec)

/-! Unfolding equations of `feed_data_loop`, one per outcome of
`try_decode_message`. -/

theorem feed_data_loop_none (from_slice : List Nat → Option Message)
    (header_bytes : MessageHeader → List Nat) (dec dec2 : ProtocolDecoder)
    (h : try_decode_message from_slice dec = (none, dec2)) :
    feed_data_loop from_slice header_bytes dec = ([], dec2) := by
  rw [feed_data_loop.eq_def]
  split
  · rename_i dec3 heq
    rw [h, Prod.mk.injEq] at heq
    obtain ⟨-, h2⟩ := heq
    rw [h2]
  · rename_i msg dec3 heq
    rw [h] at heq
    simp at heq
  · rename_i e dec3 heq
    rw [h] at heq
    simp at heq

theorem feed_data_loop_ok (from_slice : List Nat → Option Message)
    (header_bytes : MessageHeader → List Nat) (dec dec2 : ProtocolDecoder)
    (msg : Message)
    (h : try_decode_message from_slice dec = (some (Except.ok msg), dec2)) :
    feed_data_loop from_slice header_bytes dec =
      if Message.verify_checksum header_bytes msg then
        (msg :: (feed_data_loop from_slice header_bytes dec2).1,
          (feed_data_loop from_slice header_bytes dec2).2)
      else feed_data_loop from_slice header_bytes dec2 := by
  rw [feed_data_loop.eq_def]
  split
  · rename_i dec3 heq
    rw [h] at heq
    simp at heq
  · rename_i msg2 dec3 heq
    rw [h] at heq
    simp only [Prod.mk.injEq, Option.some.injEq, Except.ok.injEq] at heq
    obtain ⟨h1, h2⟩ := heq
    rw [h1, h2]
  · rename_i e dec3 heq
    rw [h] at heq
    simp at heq

theorem feed_data_loop_error (from_slice : List Nat → Option Message)
    (header_bytes : MessageHeader → List Nat) (dec dec2 : ProtocolDecoder)
    (e : UshError)
    (h : try_decode_message from_slice dec = (some (Except.error e), dec2)) :
    feed_data_loop from_slice header_bytes dec =
      feed_data_loop from_slice header_bytes
        { dec2 with state := .WaitingForPreamble } := by
  rw [feed_data_loop.eq_def]
  split
  · rename_i dec3 heq
    rw [h] at heq
    simp at heq
  · rename_i msg2 dec3 heq
    rw [h] at heq
    simp at heq
  · rename_i e2 dec3 heq
    rw [h] at heq
    simp only [Prod.mk.injEq, Option.some.injEq, Except.error.injEq] at heq
    obtain ⟨h1, h2⟩ := heq
    rw [h2]

theorem feed_data_loop_all_verified (from_slice : List Nat → Option Message)
    (header_bytes : MessageHeader → List Nat) (dec : ProtocolDecoder) :
    ∀ m ∈ (feed_data_loop from_slice header_bytes dec).1,
      Message.verify_checksum header_bytes m = true := by
  induction dec using (feed_data_loop.induct from_slice header_bytes)
  case case1 dec dec2 h =>
    rw [feed_data_loop_none from_slice header_bytes dec dec2 h]
    simp
  case case2 dec msg dec2 h hver ih =>
    intro m hm
    rw [feed_data_loop_ok from_slice header_bytes dec dec2 msg h,
      if_pos hver] at hm
    rcases List.mem_cons.1 hm with rfl | hm2
    · exact hver
    · exact ih m hm2
  case case3 dec msg dec2 h hver ih =>
    intro m hm
    rw [feed_data_loop_ok from_slice header_bytes dec dec2 msg h,
      if_neg hver] at hm
    exact ih m hm
  case case4 dec e dec2 h ih =>
    intro m hm
    rw [feed_data_loop_error from_slice header_bytes dec dec2 e h] at hm
    exact ih m hm

theorem feed_data_fst (from_slice : List Nat → Option Message)
    (header_bytes : MessageHeader → List Nat) (dec : ProtocolDecoder)
    (data : List Nat) :
    (feed_data from_slice header_bytes dec data).1 =
      (feed_data_loop from_slice header_bytes
        { dec with buffer := dec.buffer ++ data }).1 := by
  rw [feed_data]
  dsimp only
  split <;> rfl

/-- A generic first-match property of `List.find?` over `List.range`:
the found index satisfies the predicate, lies in range, and is minimal. -/
theorem find?_range_first {p : Nat → Bool} {n j : Nat}
    (h : (List.range n).find? p = some j) :
    p j = true ∧ j < n ∧ ∀ k < j, p k = false := by
  rw [List.find?_eq_some] at h
  obtain ⟨hpj, as, bs, hsplit, hmin⟩ := h
  have hjn : j < n := by
    have : j ∈ List.range n := by rw [hsplit]; simp
    exact List.mem_range.1 this
  refine ⟨hpj, hjn, ?_⟩
  have hlen : as.length + (bs.length + 1) = n := by
    have := congrArg List.length hsplit
    simp [List.length_range] at this
    omega
  have hb1 : as.length < (List.range n).length := by
    rw [List.length_range]; omega
  have hb2 : as.length < (as ++ j :: bs).length := by simp
  have hj : j = as.length := by
    have h1 : (List.range n)[as.length] = as.length := List.getElem_range _ hb1
    have h2 : (List.range n)[as.length] = (as ++ j :: bs)[as.length] := by
      congr 1
    have h3 : (as ++ j :: bs)[as.length] = j := by
      rw [List.getElem_append_right (Nat.le_refl _)]
      simp
    rw [h1, h3] at h2
    exact h2.symm
  intro k hk
  have hkas : k < as.length := by omega
  have hbk1 : k < (List.range n).length := by rw [List.length_range]; omega
  have h4 : (List.range n)[k] = (as ++ j :: bs)[k] := by congr 1
  have h5 : (as ++ j :: bs)[k] = as[k] := List.getElem_append_left hkas
  have h6 : (List.range n)[k] = k := List.getElem_range _ hbk1
  have hkm : k ∈ as := by
    have h7 : as[k] = k := by rw [← h5, ← h4, h6]
    rw [← h7]
    exact List.getElem_mem _
  have := hmin k hkm
  simpa using this

theorem double_preamble_length : (PREAMBLE ++ PREAMBLE).length = 8 := rfl

/-- Soundness and minimality of the preamble scan: the found position
carries the doubled preamble and no earlier position does. -/
theorem find_preamble_spec {buffer : List Nat} {p : Nat}
    (h : find_preamble buffer = some p) :
    (buffer.drop p).take 8 = PREAMBLE ++ PREAMBLE ∧
      ∀ q < p, (buffer.drop q).take 8 ≠ PREAMBLE ++ PREAMBLE := by
  unfold find_preamble at h
  split at h
  · exact absurd h (by simp)
  · obtain ⟨hp, hlt, hmin⟩ := find?_range_first h
    simp only [double_preamble_length, beq_iff_eq] at hp
    refine ⟨hp, fun q hq => ?_⟩
    have := hmin q hq
    simp only [double_preamble_length, beq_eq_false_iff_ne, ne_eq] at this
    exact this

/-- Completeness of the preamble scan: a doubled-preamble window at
position `j` guarantees the scan succeeds at some position `p ≤ j`. -/
theorem find_preamble_complete {buffer : List Nat} {j : Nat}
    (hw : (buffer.drop j).take 8 = PREAMBLE ++ PREAMBLE) :
    ∃ p, find_preamble buffer = some p ∧ p ≤ j := by
  have h8 : ((buffer.drop j).take 8).length = 8 := by rw [hw]; rfl
  simp only [List.length_take, List.length_drop] at h8
  have hjlen : j + 8 ≤ buffer.length := by omega
  unfold find_preamble
  rw [if_neg (by simp only [double_preamble_length]; omega)]
  cases hfind : (List.range (buffer.length - (PREAMBLE ++ PREAMBLE).length + 1)).find?
      (fun i => (buffer.drop i).take (PREAMBLE ++ PREAMBLE).length
        == PREAMBLE ++ PREAMBLE) with
  | none =>
    rw [List.find?_eq_none] at hfind
    have hjr : j ∈ List.range (buffer.length - (PREAMBLE ++ PREAMBLE).length + 1) := by
      rw [List.mem_range]
      simp only [double_preamble_length]
      omega
    have := hfind j hjr
    simp only [double_preamble_length, beq_iff_eq] at this
    exact absurd hw this
  | some p =>
    obtain ⟨hp, hlt, hmin⟩ := find?_range_first hfind
    refine ⟨p, rfl, ?_⟩
    by_contra hc
    push_neg at hc
    have := hmin j hc
    simp only [double_preamble_length, beq_iff_eq] at this
    simp [hw] at this

/-- When the scan fails there is no doubled-preamble window anywhere. -/
theorem find_preamble_none_no_window {g : List Nat}
    (hg : find_preamble g = none) (i : Nat) :
    (g.drop i).take 8 ≠ PREAMBLE ++ PREAMBLE := by
  intro hw
  obtain ⟨p, hp, -⟩ := find_preamble_complete hw
  rw [hg] at hp
  cases hp

/-- Preamble-freeness is preserved by dropping a prefix. -/
theorem find_preamble_drop_none {g : List Nat}
    (hg : find_preamble g = none) (n : Nat) :
    find_preamble (g.drop n) = none := by
  cases hfind : find_preamble (g.drop n) with
  | none => rfl
  | some q =>
    obtain ⟨hw, -⟩ := find_preamble_spec hfind
    rw [List.drop_drop] at hw
    exact absurd hw (find_preamble_none_no_window hg _)

/-- All-zero buffers contain no preamble. -/
theorem find_preamble_replicate_zero (n : Nat) :
    find_preamble (List.replicate n 0) = none := by
  cases hfind : find_preamble (List.replicate n 0) with
  | none => rfl
  | some q =>
    obtain ⟨hw, -⟩ := find_preamble_spec hfind
    rw [List.drop_replicate, List.take_replicate] at hw
    have hlen8 : min 8 (n - q) = 8 := by
      have hl := congrArg List.length hw
      simpa [PREAMBLE] using hl
    rw [hlen8] at hw
    exact absurd hw (by decide)

theorem PREAMBLE_length : PREAMBLE.length = 4 := rfl

theorem START_DELIMITER_length : START_DELIMITER.length = 2 := rfl

theorem END_DELIMITER_length : END_DELIMITER.length = 2 := rfl

theorem encode_message_assoc (to_vec : Message → List Nat) (msg : Message) :
    encode_message to_vec msg =
      (PREAMBLE ++ PREAMBLE) ++ (START_DELIMITER ++
        (u16_be_bytes ((to_vec msg).length % 2 ^ 16) ++
          (to_vec msg ++ END_DELIMITER))) := by
  simp [encode_message, List.append_assoc]

theorem encode_message_length (to_vec : Message → List Nat) (msg : Message) :
    (encode_message to_vec msg).length = (to_vec msg).length + 14 := by
  simp [encode_message, u16_be_bytes, PREAMBLE, START_DELIMITER, END_DELIMITER]

/-- Running the decoder on a full frame from the `WaitingForStart` state
consumes the whole frame and yields the deserialized message. -/
theorem frame_run (from_slice : List Nat → Option Message)
    (to_vec : Message → List Nat) (msg : Message)
    (hlen : (to_vec msg).length ≤ 2048)
    (hparse : from_slice (to_vec msg) = some msg) (exp : Nat) :
    try_decode_message from_slice
      ⟨encode_message to_vec msg, .WaitingForStart, exp⟩ =
      (some (Except.ok msg),
        ⟨[], .WaitingForPreamble, (to_vec msg).length⟩) := by
  have hmod : (to_vec msg).length % 2 ^ 16 = (to_vec msg).length :=
    Nat.mod_eq_of_lt (by omega)
  have hlen10 : PREAMBLE.length * 2 + START_DELIMITER.length ≤
      (encode_message to_vec msg).length := by
    simp only [PREAMBLE_length, START_DELIMITER_length, encode_message_length]
    omega
  have hdp : PREAMBLE.length * 2 = (PREAMBLE ++ PREAMBLE).length := by
    simp [PREAMBLE_length]
  have hdrop8 : (encode_message to_vec msg).drop (PREAMBLE.length * 2) =
      START_DELIMITER ++ (u16_be_bytes ((to_vec msg).length % 2 ^ 16) ++
        (to_vec msg ++ END_DELIMITER)) := by
    rw [encode_message_assoc, hdp, List.drop_left]
  have hstart : ((encode_message to_vec msg).drop
      (PREAMBLE.length * 2)).take START_DELIMITER.length = START_DELIMITER := by
    rw [hdrop8, List.take_left]
  rw [try_decode_message_start, if_pos hlen10, if_pos hstart]
  have hds : PREAMBLE.length * 2 + START_DELIMITER.length =
      ((PREAMBLE ++ PREAMBLE) ++ START_DELIMITER).length := by
    simp [PREAMBLE_length, START_DELIMITER_length]
  have hdrop10 : (encode_message to_vec msg).drop
      (PREAMBLE.length * 2 + START_DELIMITER.length) =
      u16_be_bytes ((to_vec msg).length % 2 ^ 16) ++
        (to_vec msg ++ END_DELIMITER) := by
    rw [encode_message_assoc, ← List.append_assoc, hds, List.drop_left]
  rw [hdrop10, hmod]
  have hbuf2 : u16_be_bytes (to_vec msg).length ++ (to_vec msg ++ END_DELIMITER) =
      (to_vec msg).length / 256 :: ((to_vec msg).length % 256 ::
        (to_vec msg ++ END_DELIMITER)) := by
    simp [u16_be_bytes]
  rw [hbuf2, try_decode_message_reading_length]
  rw [if_pos (by simp)]
  simp only [List.getD_cons_zero, List.getD_cons_succ]
  rw [if_neg (by simp only [MAX_MESSAGE_LENGTH]; omega)]
  have hrecomp : (to_vec msg).length / 256 * 256 + (to_vec msg).length % 256 =
      (to_vec msg).length := by omega
  simp only [List.drop_succ_cons, List.drop_zero, hrecomp]
  rw [try_decode_message_reading_message]
  rw [if_pos (by simp)]
  rw [List.take_left, hparse]
  dsimp only
  rw [if_pos (by rw [List.drop_left]; exact ⟨by simp [END_DELIMITER_length], by simp⟩)]
  rw [List.drop_left]
  simp

/-- Resynchronization core: a full frame preceded by preamble-free garbage
is decoded from `WaitingForPreamble` exactly like the frame alone, leaving
an empty buffer. -/
theorem encode_message_resync_run (from_slice : List Nat → Option Message)
    (to_vec : Message → List Nat) (msg : Message)
    (hlen : (to_vec msg).length ≤ 2048)
    (hparse : from_slice (to_vec msg) = some msg) :
    ∀ g exp, find_preamble g = none →
      try_decode_message from_slice
        ⟨g ++ encode_message to_vec msg, .WaitingForPreamble, exp⟩ =
        (some (Except.ok msg),
          ⟨[], .WaitingForPreamble, (to_vec msg).length⟩) := by
  suffices H : ∀ n g, g.length = n → ∀ exp, find_preamble g = none →
      try_decode_message from_slice
        ⟨g ++ encode_message to_vec msg, .WaitingForPreamble, exp⟩ =
        (some (Except.ok msg),
          ⟨[], .WaitingForPreamble, (to_vec msg).length⟩) by
    exact fun g exp hg => H g.length g rfl exp hg
  intro n
  induction n using Nat.strong_induction_on with
  | _ n ih =>
    intro g hglen exp hg
    have hwin : ((g ++ encode_message to_vec msg).drop g.length).take 8 =
        PREAMBLE ++ PREAMBLE := by
      rw [List.drop_left, encode_message_assoc]
      have htl := List.take_left (α := Nat) (PREAMBLE ++ PREAMBLE)
        (START_DELIMITER ++ (u16_be_bytes ((to_vec msg).length % 2 ^ 16) ++
          (to_vec msg ++ END_DELIMITER)))
      rwa [double_preamble_length] at htl
    obtain ⟨p, hfp, hple⟩ := find_preamble_complete hwin
    rw [try_decode_message_preamble_some from_slice _ exp p hfp]
    rcases eq_or_lt_of_le hple with heq | hlt
    · rw [heq, List.drop_left]
      exact frame_run from_slice to_vec msg hlen hparse exp
    · have hw := (find_preamble_spec hfp).1
      have hover : g.length < p + 8 := by
        by_contra hc
        push_neg at hc
        have hdropg : (g ++ encode_message to_vec msg).drop p =
            g.drop p ++ encode_message to_vec msg :=
          List.drop_append_of_le_length (by omega)
        rw [hdropg, List.take_append_of_le_length
          (by simp only [List.length_drop]; omega)] at hw
        exact find_preamble_none_no_window hg p hw
      have hlen10 : PREAMBLE.length * 2 + START_DELIMITER.length ≤
          ((g ++ encode_message to_vec msg).drop p).length := by
        simp only [List.length_drop, List.length_append,
          encode_message_length, PREAMBLE_length, START_DELIMITER_length]
        omega
      have hdropp8 : ((g ++ encode_message to_vec msg).drop p).drop
          (PREAMBLE.length * 2) =
          (encode_message to_vec msg).drop (p + 8 - g.length) := by
        rw [List.drop_drop, List.drop_append_eq_append_drop,
          List.drop_eq_nil_of_le (by simp only [PREAMBLE_length]; omega),
          List.nil_append]
        congr 1
      have hstartfail : (((g ++ encode_message to_vec msg).drop p).drop
          (PREAMBLE.length * 2)).take START_DELIMITER.length ≠
          START_DELIMITER := by
        rw [hdropp8, encode_message_assoc, List.drop_append_of_le_length
          (by rw [double_preamble_length]; omega)]
        have hd1 : 1 ≤ p + 8 - g.length := by omega
        have hd7 : p + 8 - g.length ≤ 7 := by omega
        set d := p + 8 - g.length with hd
        clear_value d
        interval_cases d <;>
          simp [PREAMBLE, START_DELIMITER, List.take_append_eq_append_take]
      rw [try_decode_message_start, if_pos hlen10, if_neg hstartfail]
      have hdrop1 : ((g ++ encode_message to_vec msg).drop p).drop 1 =
          g.drop (p + 1) ++ encode_message to_vec msg := by
        rw [List.drop_drop, List.drop_append_of_le_length (by omega)]
      rw [hdrop1]
      exact ih (g.drop (p + 1)).length
        (by simp only [List.length_drop]; omega)
        (g.drop (p + 1)) rfl exp (find_preamble_drop_none hg (p + 1))

/-! Concrete fixtures used by the witnesses below. -/

/-- A degenerate header serialization (any function is admissible for the
universally quantified theorems; the checksum of an empty serialization and
empty payload is CRC32 of the empty string, namely 0). -/
def null_header_bytes : MessageHeader → List Nat := fun _ => []

def msg_ack0 : Message :=
  { header :=
      { version := 1, message_type := .Ack, sequence_number := 0,
        timestamp := 0, payload_length := 0 },
    payload := [], checksum := 0 }

def from_slice_ack0 : List Nat → Option Message := fun _ => some msg_ack0

def to_vec_empty : Message → List Nat := fun _ => []

example : Message.verify_checksum null_header_bytes msg_ack0 = true := by decide

theorem feed_data_ack0_run :
    feed_data from_slice_ack0 null_header_bytes
      ⟨[], .ReadingMessage, 0⟩ [] = ([msg_ack0], ProtocolDecoder.new) := by
  have h1 : try_decode_message from_slice_ack0 ⟨[], .ReadingMessage, 0⟩ =
      (some (Except.ok msg_ack0), ⟨[], .WaitingForPreamble, 0⟩) := by
    rw [try_decode_message_reading_message]
    simp [from_slice_ack0, END_DELIMITER]
  have h2 : try_decode_message from_slice_ack0 ⟨[], .WaitingForPreamble, 0⟩ =
      (none, ⟨[], .WaitingForPreamble, 0⟩) :=
    try_decode_message_preamble_none from_slice_ack0 [] 0 rfl
  rw [feed_data]
  dsimp only
  simp only [List.append_nil]
  have hv : Message.verify_checksum null_header_bytes msg_ack0 = true := by
    decide
  rw [feed_data_loop_ok from_slice_ack0 null_header_bytes _ _ _ h1, if_pos hv,
    feed_data_loop_none from_slice_ack0 null_header_bytes _ _ h2]
  rfl

/-- C3: every message returned by feed_data passes checksum verification;
a message whose stored checksum fails verification never appears in the
returned list (it is dropped silently — in this total embedding feed_data
always returns a plain list, surfacing no error, and the decoder value
remains usable). -/
theorem C3_feed_data_delivers_only_verified
    (from_slice : List Nat → Option Message)
    (header_bytes : MessageHeader → List Nat)
    (dec : ProtocolDecoder) (data : List Nat) :
    (∀ m ∈ (feed_data from_slice header_bytes dec data).1,
        Message.verify_checksum header_bytes m = true) ∧
      ∀ bad : Message, Message.verify_checksum header_bytes bad = false →
        bad ∉ (feed_data from_slice header_bytes dec data).1 := by
  constructor
  · intro m hm
    rw [feed_data_fst] at hm
    exact feed_data_loop_all_verified from_slice header_bytes _ m hm
  · intro bad hbad hmem
    rw [feed_data_fst] at hmem
    have := feed_data_loop_all_verified from_slice header_bytes _ bad hmem
    rw [hbad] at this
    cases this

/-- Witness for C3 at a concrete run that delivers one message. -/
theorem C3_witness :
    msg_ack0 ∈ (feed_data from_slice_ack0 null_header_bytes
        ⟨[], .ReadingMessage, 0⟩ []).1 ∧
      Message.verify_checksum null_header_bytes msg_ack0 = true := by
  have hmem : msg_ack0 ∈ (feed_data from_slice_ack0 null_header_bytes
      ⟨[], .ReadingMessage, 0⟩ []).1 := by
    rw [feed_data_ack0_run]
    exact List.mem_singleton.2 rfl
  exact ⟨hmem,
    (C3_feed_data_delivers_only_verified from_slice_ack0 null_header_bytes
      ⟨[], .ReadingMessage, 0⟩ []).1 msg_ack0 hmem⟩

/-- C4: prepending any byte sequence free of the 8-byte preamble pattern to
a frame produced by encode_message yields, on a fresh decoder, exactly the
same single decoded message as the frame alone. -/
theorem C4_resynchronization (from_slice : List Nat → Option Message)
    (header_bytes : MessageHeader → List Nat) (to_vec : Message → List Nat)
    (msg : Message) (g : List Nat)
    (hg : find_preamble g = none)
    (hlen : (to_vec msg).length ≤ 2048)
    (hparse : from_slice (to_vec msg) = some msg)
    (hver : Message.verify_checksum header_bytes msg = true) :
    (feed_data from_slice header_bytes ProtocolDecoder.new
        (g ++ encode_message to_vec msg)).1 = [msg] ∧
      (feed_data from_slice header_bytes ProtocolDecoder.new
        (encode_message to_vec msg)).1 = [msg] := by
  have hempty : feed_data_loop from_slice header_bytes
      ⟨[], .WaitingForPreamble, (to_vec msg).length⟩ =
      ([], ⟨[], .WaitingForPreamble, (to_vec msg).length⟩) :=
    feed_data_loop_none from_slice header_bytes _ _
      (try_decode_message_preamble_none from_slice [] _ rfl)
  constructor
  · rw [feed_data_fst]
    dsimp only [ProtocolDecoder.new]
    simp only [List.nil_append]
    rw [feed_data_loop_ok from_slice header_bytes _ _ _
      (encode_message_resync_run from_slice to_vec msg hlen hparse g 0 hg),
      if_pos hver, hempty]
  · rw [feed_data_fst]
    dsimp only [ProtocolDecoder.new]
    simp only [List.nil_append]
    have hrun := encode_message_resync_run from_slice to_vec msg hlen hparse
      [] 0 rfl
    rw [List.nil_append] at hrun
    rw [feed_data_loop_ok from_slice header_bytes _ _ _ hrun,
      if_pos hver, hempty]

/-- Witness for C4 with one garbage byte prepended to a concrete frame. -/
theorem C4_witness :
    find_preamble [0] = none ∧
      (feed_data from_slice_ack0 null_header_bytes ProtocolDecoder.new
        ([0] ++ encode_message to_vec_empty msg_ack0)).1 = [msg_ack0] ∧
      (feed_data from_slice_ack0 null_header_bytes ProtocolDecoder.new
        (encode_message to_vec_empty msg_ack0)).1 = [msg_ack0] := by
  have h := C4_resynchronization from_slice_ack0 null_header_bytes
    to_vec_empty msg_ack0 [0] rfl (by decide) rfl (by decide)
  exact ⟨rfl, h.1, h.2⟩

/-- C5: after feed_data the buffer never exceeds 10000 bytes, and whenever
the decode loop leaves more than 10000 bytes, the oldest bytes are dropped
so that exactly 5000 remain and the state is reset to WaitingForPreamble. -/
theorem C5_buffer_bound (from_slice : List Nat → Option Message)
    (header_bytes : MessageHeader → List Nat)
    (dec : ProtocolDecoder) (data : List Nat) :
    (feed_data from_slice header_bytes dec data).2.buffer.length ≤ 10000 ∧
      (10000 < (feed_data_loop from_slice header_bytes
          { dec with buffer := dec.buffer ++ data }).2.buffer.length →
        (feed_data from_slice header_bytes dec data).2.buffer.length = 5000 ∧
          (feed_data from_slice header_bytes dec data).2.state =
            DecoderState.WaitingForPreamble) := by
  rw [feed_data]
  dsimp only
  split
  · rename_i hgt
    refine ⟨by simp only [List.length_drop]; omega, fun hmid => ?_⟩
    exact ⟨by simp only [List.length_drop]; omega, rfl⟩
  · rename_i hle
    refine ⟨by omega, fun hmid => absurd hmid hle⟩

def dec_overflow : ProtocolDecoder :=
  ⟨List.replicate 10001 0, .WaitingForPreamble, 0⟩

theorem feed_data_loop_overflow_run :
    feed_data_loop from_slice_ack0 null_header_bytes
      { dec_overflow with buffer := dec_overflow.buffer ++ [] } =
      ([], dec_overflow) := by
  have hb : ({ dec_overflow with buffer := dec_overflow.buffer ++ [] } :
      ProtocolDecoder) = dec_overflow := by
    simp only [List.append_nil]
  rw [hb, dec_overflow]
  exact feed_data_loop_none from_slice_ack0 null_header_bytes _ _
    (try_decode_message_preamble_none from_slice_ack0 _ _
      (find_preamble_replicate_zero 10001))

/-- Witness for C5 at a 10001-byte preamble-free buffer. -/
theorem C5_witness :
    10000 < (feed_data_loop from_slice_ack0 null_header_bytes
        { dec_overflow with buffer := dec_overflow.buffer ++ [] }).2.buffer.length ∧
      (feed_data from_slice_ack0 null_header_bytes dec_overflow []).2.buffer.length = 5000 ∧
      (feed_data from_slice_ack0 null_header_bytes dec_overflow []).2.state =
        DecoderState.WaitingForPreamble := by
  have hmid : 10000 < (feed_data_loop from_slice_ack0 null_header_bytes
      { dec_overflow with buffer := dec_overflow.buffer ++ [] }).2.buffer.length := by
    rw [feed_data_loop_overflow_run]
    show 10000 < dec_overflow.buffer.length
    rw [show dec_overflow.buffer = List.replicate 10001 0 from rfl,
      List.length_replicate]
    omega
  exact ⟨hmid, (C5_buffer_bound from_slice_ack0 null_header_bytes
    dec_overflow []).2 hmid⟩

/-- C6: once a full message body is in the buffer and deserializes, the
message is produced no matter what follows it (the end delimiter, other
bytes, or nothing), and the decoder re-enters WaitingForPreamble; the
produced message is the same in every case.  When it additionally passes
the CRC filter it is the first message delivered by feed_data. -/
theorem C6_end_delimiter_advisory (from_slice : List Nat → Option Message)
    (header_bytes : MessageHeader → List Nat) (dec : ProtocolDecoder)
    (body tail : List Nat) (msg : Message)
    (hstate : dec.state = .ReadingMessage)
    (hbuf : dec.buffer = body ++ tail)
    (hexp : dec.expected_length = body.length)
    (hparse : from_slice body = some msg) :
    (try_decode_message from_slice dec).1 = some (Except.ok msg) ∧
      (try_decode_message from_slice dec).2.state =
        DecoderState.WaitingForPreamble ∧
      (Message.verify_checksum header_bytes msg = true →
        (feed_data from_slice header_bytes dec []).1.head? = some msg) := by
  obtain ⟨buf, st, e⟩ := dec
  dsimp only at hstate hbuf hexp
  subst hstate
  subst hbuf
  subst hexp
  have htry : ∀ o d2, try_decode_message from_slice
      ⟨body ++ tail, .ReadingMessage, body.length⟩ = (o, d2) →
      o = some (Except.ok msg) ∧ d2.state = DecoderState.WaitingForPreamble := by
    intro o d2 h
    rw [try_decode_message_reading_message,
      if_pos (by simp only [List.length_append]; omega),
      List.take_left, hparse] at h
    dsimp only at h
    split at h
    · rw [Prod.mk.injEq] at h
      exact ⟨h.1.symm, by rw [← h.2]⟩
    · rw [Prod.mk.injEq] at h
      exact ⟨h.1.symm, by rw [← h.2]⟩
  cases hres : try_decode_message from_slice
      ⟨body ++ tail, .ReadingMessage, body.length⟩ with
  | mk o d2 =>
    obtain ⟨ho, hd⟩ := htry o d2 hres
    subst ho
    refine ⟨rfl, hd, ?_⟩
    intro hver
    rw [feed_data]
    dsimp only
    simp only [List.append_nil]
    rw [feed_data_loop_ok from_slice header_bytes _ _ _ hres, if_pos hver]
    split <;> simp

/-- Witness for C6 at a concrete empty-body message with empty tail (the
end delimiter is absent). -/
theorem C6_witness :
    (try_decode_message from_slice_ack0 ⟨[], .ReadingMessage, 0⟩).1 =
        some (Except.ok msg_ack0) ∧
      (try_decode_message from_slice_ack0 ⟨[], .ReadingMessage, 0⟩).2.state =
        DecoderState.WaitingForPreamble ∧
      (Message.verify_checksum null_header_bytes msg_ack0 = true →
        (feed_data from_slice_ack0 null_header_bytes
          ⟨[], .ReadingMessage, 0⟩ []).1.head? = some msg_ack0) :=
  C6_end_delimiter_advisory from_slice_ack0 null_header_bytes
    ⟨[], .ReadingMessage, 0⟩ [] [] msg_ack0 rfl rfl rfl rfl

/-- C7: the encoded frame is exactly the 8 preamble bytes AA, the start
delimiter 7E 7E, the two-byte big-endian body length, the body, and the end
delimiter 7E 7E; the length field recomposes to the body byte count. -/
theorem C7_frame_layout (to_vec : Message → List Nat) (msg : Message)
    (hlen : (to_vec msg).length < 2 ^ 16) :
    encode_message to_vec msg =
      [0xAA, 0xAA, 0xAA, 0xAA, 0xAA, 0xAA, 0xAA, 0xAA] ++ [0x7E, 0x7E] ++
        [(to_vec msg).length / 256, (to_vec msg).length % 256] ++
        to_vec msg ++ [0x7E, 0x7E] ∧
      (to_vec msg).length / 256 * 256 + (to_vec msg).length % 256 =
        (to_vec msg).length ∧
      (to_vec msg).length / 256 < 256 := by
  have hmod : (to_vec msg).length % 65536 = (to_vec msg).length :=
    Nat.mod_eq_of_lt (by omega)
  refine ⟨?_, by omega, by omega⟩
  simp [encode_message, u16_be_bytes, hmod, PREAMBLE, START_DELIMITER,
    END_DELIMITER]

/-- Witness for C7 at a concrete message with empty serialization. -/
theorem C7_witness :
    (to_vec_empty msg_ack0).length < 2 ^ 16 ∧
      (encode_message to_vec_empty msg_ack0 =
        [0xAA, 0xAA, 0xAA, 0xAA, 0xAA, 0xAA, 0xAA, 0xAA] ++ [0x7E, 0x7E] ++
          [(to_vec_empty msg_ack0).length / 256,
            (to_vec_empty msg_ack0).length % 256] ++
          to_vec_empty msg_ack0 ++ [0x7E, 0x7E] ∧
        (to_vec_empty msg_ack0).length / 256 * 256 +
            (to_vec_empty msg_ack0).length % 256 =
          (to_vec_empty msg_ack0).length ∧
        (to_vec_empty msg_ack0).length / 256 < 256) :=
  ⟨by decide, C7_frame_layout to_vec_empty msg_ack0 (by decide)⟩

/-- C10: reset leaves the decoder exactly in the freshly constructed state,
so any subsequent sequence of feed_data calls behaves as on a new decoder. -/
theorem C10_reset_equals_new (dec : ProtocolDecoder)
    (from_slice : List Nat → Option Message)
    (header_bytes : MessageHeader → List Nat) (chunks : List (List Nat)) :
    dec.reset = ProtocolDecoder.new ∧
      feed_data_seq from_slice header_bytes dec.reset chunks =
        feed_data_seq from_slice header_bytes ProtocolDecoder.new chunks :=
  ⟨rfl, rfl⟩

/-! ## Modulation (src/src/modulation.rs)

The config fields are `f32` in the source; they are modelled as exact
rationals (the defaults 0.01 s and 0.002 s, and the carrier frequencies,
are exact in the model; at the default sample rate the derived integer
quantities below coincide with the f32 evaluation of the source: the f32
products round to 441.0 and 88.2 respectively).  Audio samples are `ℝ`. -/

structure ModulationConfig where
  sample_rate : Nat
  freq_0 : ℚ
  freq_1 : ℚ
  symbol_duration : ℚ
  ramp_duration : ℚ

/-- Embedding of `ModulationConfig::default` (modulation.rs lines 20-30). -/
def ModulationConfig.default : ModulationConfig :=
  { sample_rate := 44100, freq_0 := 18000, freq_1 := 20000,
    symbol_duration := 1 / 100, ramp_duration := 1 / 500 }

/-- Embedding of `(config.sample_rate as f32 * config.symbol_duration) as
usize` (modulation.rs lines 40 and 112): the `as usize` cast truncates the
nonnegative product toward zero, i.e. takes the floor. -/
def samples_per_symbol (config : ModulationConfig) : Nat :=
  ⌊(config.sample_rate : ℚ) * config.symbol_duration⌋₊

/-- Embedding of `(config.sample_rate as f32 * config.ramp_duration) as
usize` (modulation.rs line 41). -/
def ramp_samples (config : ModulationConfig) : Nat :=
  ⌊(config.sample_rate : ℚ) * config.ramp_duration⌋₊

/-- Embedding of `samples_per_symbol.next_power_of_two()` (modulation.rs
line 113). -/
def fft_size (config : ModulationConfig) : Nat :=
  Nat.nextPowerOfTwo (samples_per_symbol config)

/-- Embedding of `FskModulator::generate_symbol` (modulation.rs lines
64-87): a sine burst at `frequency`, linearly ramped over the opening
(first symbol) and closing (last symbol) `ramp_samples`, scaled to 0.3. -/
noncomputable def generate_symbol (config : ModulationConfig)
    (frequency : ℝ) (is_first is_last : Bool) : List ℝ :=
  (List.range (samples_per_symbol config)).map (fun (i : Nat) =>
    let t : ℝ := (i : ℝ) / (config.sample_rate : ℝ)
    let phase : ℝ := 2 * Real.pi * frequency * t
    let base : ℝ := Real.sin phase
    let ramped_up : ℝ :=
      if is_first = true ∧ i < ramp_samples config then
        base * ((i : ℝ) / (ramp_samples config : ℝ))
      else base
    let remaining : Nat := samples_per_symbol config - i
    let ramped : ℝ :=
      if is_last = true ∧
          samples_per_symbol config - ramp_samples config ≤ i then
        ramped_up * ((remaining : ℝ) / (ramp_samples config : ℝ))
      else ramped_up
    ramped * 0.3)

/-- Embedding of `FskModulator::encode_bits` (modulation.rs lines 50-62):
one symbol per bit, `freq_1` for true and `freq_0` for false, ramping on
the first and last symbol of the whole transmission. -/
noncomputable def encode_bits (config : ModulationConfig)
    (bits : List Bool) : List ℝ :=
  (bits.enum.map (fun p =>
    generate_symbol config
      (if p.2 then (config.freq_1 : ℝ) else (config.freq_0 : ℝ))
      (p.1 == 0) (p.1 == bits.length - 1))).flatten

/-- Embedding of the byte-to-bit expansion inside
`FskModulator::encode_bytes` (modulation.rs lines 92-97): the source loops
`for i in (0..8).rev()` pushing `(byte >> i) & 1 == 1`; here the same
sequence is written with ascending `j = 7 - i`. -/
def bytes_to_bits (data : List Nat) : List Bool :=
  data.flatMap (fun byte =>
    (List.range 8).map (fun j => (byte >>> (7 - j)) &&& 1 == 1))

/-- Embedding of `FskModulator::encode_bytes` (modulation.rs lines
89-100). -/
noncomputable def encode_bytes (config : ModulationConfig)
    (data : List Nat) : List ℝ :=
  encode_bits config (bytes_to_bits data)

/-- Embedding of the bin computation in `FskDemodulator::decode_symbol`
(modulation.rs lines 166-167): the source computes
`(freq * fft_size as f32 / sample_rate as f32) as usize` inline for both
carrier frequencies; the `as usize` cast truncates toward zero. -/
def freq_bin (config : ModulationConfig) (freq : ℚ) : Nat :=
  ⌊freq * (fft_size config : ℚ) / (config.sample_rate : ℚ)⌋₊

/-- Modelled from the spec: spec section 4.2 step 3 states the target bins
as `b = round(freq · fft_size / sample_rate)`, the nearest integer. -/
def freq_bin_rounded (config : ModulationConfig) (freq : ℚ) : Nat :=
  (round (freq * (fft_size config : ℚ) / (config.sample_rate : ℚ))).toNat

/-- The discrete Fourier transform of a complex buffer, the mathematical
function computed by the external rustfft plan in
`FskDemodulator::decode_symbol` (modulation.rs line 163). -/
noncomputable def dft (x : List ℂ) : List ℂ :=
  (List.range x.length).map (fun (k : Nat) =>
    ∑ n ∈ Finset.range x.length,
      x.getD n 0 * Complex.exp (-(2 * Real.pi * Complex.I) *
        (k : ℂ) * (n : ℂ) / (x.length : ℂ)))

/-- Embedding of `FskDemodulator::decode_symbol` (modulation.rs lines
153-205): pad to `fft_size` (Rust `Vec::resize` both extends with zeros
and truncates), transform, take the maximal squared magnitude over the
seven bins around each carrier bin (clamped to the buffer), fail when both
powers are below the 0.001 threshold, else compare.  The f32 literal 0.001
is modelled as the exact rational. -/
noncomputable def decode_symbol (config : ModulationConfig)
    (samples : List ℝ) : Except UshError Bool :=
  let padded : List ℂ :=
    ((samples.map (fun (s : ℝ) => (s : ℂ))) ++
      List.replicate (fft_size config - samples.length) 0).take
      (fft_size config)
  let spectrum : List ℂ := dft padded
  let freq_0_bin : Nat := freq_bin config config.freq_0
  let freq_1_bin : Nat := freq_bin config config.freq_1
  let power_0_max : ℝ :=
    ((List.range (min (freq_0_bin + 3) (spectrum.length - 1) + 1 -
        (freq_0_bin - 3))).map (fun j =>
      Complex.normSq (spectrum.getD (freq_0_bin - 3 + j) 0))).foldl max 0
  let power_1_max : ℝ :=
    ((List.range (min (freq_1_bin + 3) (spectrum.length - 1) + 1 -
        (freq_1_bin - 3))).map (fun j =>
      Complex.normSq (spectrum.getD (freq_1_bin - 3 + j) 0))).foldl max 0
  if power_0_max < 1 / 1000 ∧ power_1_max < 1 / 1000 then
    Except.error (UshError.Decoding ("No signal detected in symbol"))
  else
    Except.ok (decide (power_0_max < power_1_max))

/-- Embedding of `FskDemodulator::decode_samples` (modulation.rs lines
126-151). -/
noncomputable def decode_samples (config : ModulationConfig)
    (samples : List ℝ) : Except UshError (List Bool) :=
  if samples.length % samples_per_symbol config ≠ 0 then
    Except.error (UshError.Decoding
      ("Sample length " ++ toString samples.length ++
        " is not a multiple of symbol length " ++
        toString (samples_per_symbol config)))
  else
    (List.range (samples.length / samples_per_symbol config)).mapM (fun i =>
      decode_symbol config
        ((samples.drop (i * samples_per_symbol config)).take
          (samples_per_symbol config)))

/-- Embedding of `bits.chunks_exact(8)` in `FskDemodulator::decode_bytes`
(modulation.rs line 221): full 8-bit chunks, remainder discarded (the
caller has already checked the length is a multiple of 8). -/
def chunks_exact_8 : List Bool → List (List Bool)
  | b0 :: b1 :: b2 :: b3 :: b4 :: b5 :: b6 :: b7 :: rest =>
    [b0, b1, b2, b3, b4, b5, b6, b7] :: chunks_exact_8 rest
  | _ => []

/-- Embedding of the byte assembly loop in `FskDemodulator::decode_bytes`
(modulation.rs lines 222-228): MSB first. -/
def byte_from_bits (chunk : List Bool) : Nat :=
  chunk.enum.foldl
    (fun byte p => if p.2 then byte ||| 1 <<< (7 - p.1) else byte) 0

/-- Embedding of `FskDemodulator::decode_bytes` (modulation.rs lines
207-233). -/
noncomputable def decode_bytes (config : ModulationConfig)
    (samples : List ℝ) : Except UshError (List Nat) := do
  let bits ← decode_samples config samples
  if bits.length % 8 ≠ 0 then
    Except.error (UshError.Decoding
      ("Bit count " ++ toString bits.length ++ " is not a multiple of 8"))
  else
    Except.ok ((chunks_exact_8 bits).map byte_from_bits)

theorem samples_per_symbol_default :
    samples_per_symbol ModulationConfig.default = 441 := by
  rw [samples_per_symbol,
    show ((ModulationConfig.default.sample_rate : ℚ) *
      ModulationConfig.default.symbol_duration) = 441 from by
        norm_num [ModulationConfig.default]]
  norm_num

theorem fft_size_default : fft_size ModulationConfig.default = 512 := by
  rw [fft_size, samples_per_symbol_default, Nat.nextPowerOfTwo]
  rw [Nat.nextPowerOfTwo.go]; norm_num
  rw [Nat.nextPowerOfTwo.go]; norm_num
  rw [Nat.nextPowerOfTwo.go]; norm_num
  rw [Nat.nextPowerOfTwo.go]; norm_num
  rw [Nat.nextPowerOfTwo.go]; norm_num
  rw [Nat.nextPowerOfTwo.go]; norm_num
  rw [Nat.nextPowerOfTwo.go]; norm_num
  rw [Nat.nextPowerOfTwo.go]; norm_num
  rw [Nat.nextPowerOfTwo.go]; norm_num
  rw [Nat.nextPowerOfTwo.go]; norm_num

/-- C2 counterexample: under the default configuration the demodulator's
bin for freq_0 is the truncation 208, while the spec's round formula gives
209, so the per-symbol decision does not use the nearest-integer bin.  The
exact rational evaluation agrees with the f32 evaluation of the source
here: 18000·512 = 9216000 is exact in f32, the quotient 9216000/44100 ≈
208.9796 rounds to an f32 strictly between 208 and 209, and the `as usize`
cast truncates it to 208. -/
theorem C2_counterexample :
    freq_bin ModulationConfig.default ModulationConfig.default.freq_0 = 208 ∧
      freq_bin_rounded ModulationConfig.default
        ModulationConfig.default.freq_0 = 209 ∧
      freq_bin ModulationConfig.default ModulationConfig.default.freq_0 ≠
        freq_bin_rounded ModulationConfig.default
          ModulationConfig.default.freq_0 := by
  have h1 : freq_bin ModulationConfig.default
      ModulationConfig.default.freq_0 = 208 := by
    rw [freq_bin, fft_size_default,
      show ModulationConfig.default.freq_0 = 18000 from rfl,
      show ((ModulationConfig.default.sample_rate : ℚ)) = 44100 from rfl]
    rw [Nat.floor_eq_iff (by positivity)]
    norm_num
  have h2 : freq_bin_rounded ModulationConfig.default
      ModulationConfig.default.freq_0 = 209 := by
    rw [freq_bin_rounded, fft_size_default,
      show ModulationConfig.default.freq_0 = 18000 from rfl,
      show ((ModulationConfig.default.sample_rate : ℚ)) = 44100 from rfl]
    rw [round_eq,
      show ⌊(18000 : ℚ) * (512 : Nat) / 44100 + 1 / 2⌋ = 209 from by
        rw [Int.floor_eq_iff]; norm_num]
    rfl
  exact ⟨h1, h2, by rw [h1, h2]; omega⟩

/-- C2 amended: the demodulator computes each target bin by truncating
`freq · fft_size / sample_rate` toward zero — the bin `b` it uses in every
symbol decision is the floor, characterized by `b ≤ x < b + 1` — rather
than the nearest integer of the spec. -/
theorem C2_amended_truncated_bins (config : ModulationConfig) (freq : ℚ)
    (hfreq : 0 ≤ freq) :
    (freq_bin config freq : ℚ) ≤
        freq * (fft_size config : ℚ) / (config.sample_rate : ℚ) ∧
      freq * (fft_size config : ℚ) / (config.sample_rate : ℚ) <
        (freq_bin config freq : ℚ) + 1 := by
  rw [freq_bin]
  exact ⟨Nat.floor_le (by positivity), Nat.lt_floor_add_one _⟩

/-- Witness for the amended C2 at the default configuration. -/
theorem C2_amended_witness :
    (0 : ℚ) ≤ ModulationConfig.default.freq_0 ∧
      ((freq_bin ModulationConfig.default ModulationConfig.default.freq_0 : ℚ) ≤
          ModulationConfig.default.freq_0 *
            (fft_size ModulationConfig.default : ℚ) /
            (ModulationConfig.default.sample_rate : ℚ) ∧
        ModulationConfig.default.freq_0 *
            (fft_size ModulationConfig.default : ℚ) /
            (ModulationConfig.default.sample_rate : ℚ) <
          (freq_bin ModulationConfig.default
            ModulationConfig.default.freq_0 : ℚ) + 1) :=
  ⟨by norm_num [ModulationConfig.default],
    C2_amended_truncated_bins ModulationConfig.default
      ModulationConfig.default.freq_0
      (by norm_num [ModulationConfig.default])⟩

/-- C9: decode_bytes fails with the Decoding length error on any input
whose sample count is not a multiple of samples_per_symbol (such a count is
necessarily positive), and returns Ok [] — not an error — on empty input. -/
theorem C9_decode_bytes_boundaries (config : ModulationConfig)
    (samples : List ℝ) :
    (samples.length % samples_per_symbol config ≠ 0 →
      decode_bytes config samples = Except.error (UshError.Decoding
        ("Sample length " ++ toString samples.length ++
          " is not a multiple of symbol length " ++
          toString (samples_per_symbol config)))) ∧
      decode_bytes config ([] : List ℝ) = Except.ok [] := by
  constructor
  · intro h
    rw [decode_bytes, decode_samples, if_pos h]
    rfl
  · rw [decode_bytes, decode_samples]
    rw [if_neg (by simp)]
    simp only [List.length_nil, Nat.zero_div, List.range_zero]
    rfl

/-- Witness for C9 at a one-sample input under the default configuration
(symbol length 441). -/
theorem C9_witness :
    ([(0 : ℝ)].length % samples_per_symbol ModulationConfig.default ≠ 0 ∧
        decode_bytes ModulationConfig.default [(0 : ℝ)] =
          Except.error (UshError.Decoding
            ("Sample length " ++ toString [(0 : ℝ)].length ++
              " is not a multiple of symbol length " ++
              toString (samples_per_symbol ModulationConfig.default)))) ∧
      decode_bytes ModulationConfig.default ([] : List ℝ) = Except.ok [] := by
  have hne : [(0 : ℝ)].length % samples_per_symbol ModulationConfig.default ≠
      0 := by
    rw [samples_per_symbol_default]
    simp
  exact ⟨⟨hne, (C9_decode_bytes_boundaries ModulationConfig.default
      [(0 : ℝ)]).1 hne⟩,
    (C9_decode_bytes_boundaries ModulationConfig.default [(0 : ℝ)]).2⟩

theorem generate_symbol_length (config : ModulationConfig) (frequency : ℝ)
    (is_first is_last : Bool) :
    (generate_symbol config frequency is_first is_last).length =
      samples_per_symbol config := by
  rw [generate_symbol, List.length_map, List.length_range]

theorem bytes_to_bits_cons (b : Nat) (t : List Nat) :
    bytes_to_bits (b :: t) =
      ((List.range 8).map (fun j => (b >>> (7 - j)) &&& 1 == 1)) ++
        bytes_to_bits t := by
  rw [bytes_to_bits, List.flatMap_cons]
  rfl

theorem bytes_to_bits_length (data : List Nat) :
    (bytes_to_bits data).length = 8 * data.length := by
  induction data with
  | nil => rfl
  | cons b t ih =>
    rw [bytes_to_bits_cons]
    simp only [List.length_append, List.length_map, List.length_range,
      List.length_cons, ih]
    ring

theorem bytes_to_bits_getD (data : List Nat) (k : Nat)
    (hk : k < 8 * data.length) :
    (bytes_to_bits data).getD k false =
      ((data.getD (k / 8) 0 >>> (7 - k % 8)) &&& 1 == 1) := by
  induction data generalizing k with
  | nil => simp at hk
  | cons b t ih =>
    rw [bytes_to_bits_cons]
    by_cases hk8 : k < 8
    · rw [List.getD_append _ _ _ _ (by simp; omega)]
      rw [List.getD_eq_getElem _ _ (by simp; omega), List.getElem_map,
        List.getElem_range]
      rw [show k / 8 = 0 from by omega, show k % 8 = k from by omega,
        List.getD_cons_zero]
    · rw [List.getD_append_right _ _ _ _ (by simp; omega)]
      have hk2 : k - 8 < 8 * t.length := by
        simp only [List.length_cons] at hk
        omega
      simp only [List.length_map, List.length_range]
      rw [ih (k - 8) hk2]
      rw [show k / 8 = (k - 8) / 8 + 1 from by omega,
        show (k - 8) % 8 = k % 8 from by omega, List.getD_cons_succ]

theorem flatten_drop_take {α : Type} (m : Nat) (l : List (List α)) :
    ∀ k, (∀ x ∈ l, x.length = m) → k < l.length →
      ((l.flatten).drop (k * m)).take m = l.getD k [] := by
  induction l with
  | nil => intro k _ hk; simp at hk
  | cons a t ih =>
    intro k hm hk
    have ha : a.length = m := hm a (by simp)
    rcases k with _ | k
    · simp only [Nat.zero_mul, List.drop_zero, List.flatten_cons,
        List.getD_cons_zero]
      rw [List.take_append_of_le_length (by omega), ← ha, List.take_length]
    · simp only [List.flatten_cons, List.getD_cons_succ]
      rw [show (k + 1) * m = a.length + k * m from by rw [ha]; ring]
      rw [List.drop_append_eq_append_drop,
        List.drop_eq_nil_of_le (by omega), List.nil_append,
        show a.length + k * m - a.length = k * m from by omega]
      exact ih k (fun x hx => hm x (by simp [hx])) (by simpa using hk)

theorem enum_map_getD {α β : Type} (f : Nat × α → β) (l : List α) (k : Nat)
    (hk : k < l.length) (d : β) (d2 : α) :
    (l.enum.map f).getD k d = f (k, l.getD k d2) := by
  have h1 : k < (l.enum.map f).length := by
    simp [List.enum_length]
    omega
  rw [List.getD_eq_getElem _ _ h1, List.getElem_map, List.getElem_enum,
    List.getD_eq_getElem _ _ hk]

theorem encode_bits_length (config : ModulationConfig) (bits : List Bool) :
    (encode_bits config bits).length =
      bits.length * samples_per_symbol config := by
  rw [encode_bits, List.length_flatten]
  rw [show (bits.enum.map (fun p => generate_symbol config
      (if p.2 then (config.freq_1 : ℝ) else (config.freq_0 : ℝ))
      (p.1 == 0) (p.1 == bits.length - 1))).map List.length =
    List.replicate bits.length (samples_per_symbol config) from ?_]
  · rw [List.sum_replicate, smul_eq_mul]
  · rw [List.eq_replicate_iff]
    constructor
    · simp [List.enum_length]
    · intro x hx
      obtain ⟨y, hy, rfl⟩ := List.mem_map.1 hx
      obtain ⟨p, hp, rfl⟩ := List.mem_map.1 hy
      exact generate_symbol_length config _ _ _

theorem shiftRight_and_beq_one (b j : Nat) :
    ((b >>> j) &&& 1 == 1) = b.testBit j := by
  rw [Nat.testBit_to_div_mod, Nat.and_one_is_mod, Nat.shiftRight_eq_div_pow]
  rcases Nat.mod_two_eq_zero_or_one (b / 2 ^ j) with h | h <;> simp [h]

/-- C8: encode_bytes emits exactly 8·|d|·samples_per_symbol samples; sample
window k (of samples_per_symbol consecutive samples) is exactly the symbol
for bit 7 - k%8 of byte k/8 — most-significant-bit first — ramped only when
it is the very first or very last symbol of the transmission. -/
theorem C8_encode_bytes_shape (config : ModulationConfig) (data : List Nat) :
    (encode_bytes config data).length =
        8 * data.length * samples_per_symbol config ∧
      ∀ k, k < 8 * data.length →
        ((encode_bytes config data).drop
            (k * samples_per_symbol config)).take
            (samples_per_symbol config) =
          generate_symbol config
            (if (data.getD (k / 8) 0).testBit (7 - k % 8) then
                (config.freq_1 : ℝ)
              else (config.freq_0 : ℝ))
            (k == 0) (k == 8 * data.length - 1) := by
  have hbl := bytes_to_bits_length data
  constructor
  · rw [encode_bytes, encode_bits_length, hbl]
  · intro k hk
    have hk2 : k < (bytes_to_bits data).length := by omega
    rw [encode_bytes, encode_bits]
    rw [flatten_drop_take (samples_per_symbol config) _ k
      (fun x hx => by
        obtain ⟨p, hp, rfl⟩ := List.mem_map.1 hx
        exact generate_symbol_length config _ _ _)
      (by simp only [List.length_map, List.enum_length]; omega)]
    rw [enum_map_getD _ _ k hk2 [] false]
    rw [bytes_to_bits_getD data k hk, shiftRight_and_beq_one, hbl]

/-- Witness for C8 at the byte 0x48 and window index 3 (bit value 0, an
interior symbol). -/
theorem C8_witness :
    (encode_bytes ModulationConfig.default [0x48]).length =
        8 * [0x48].length * samples_per_symbol ModulationConfig.default ∧
      3 < 8 * [0x48].length ∧
      ((encode_bytes ModulationConfig.default [0x48]).drop
          (3 * samples_per_symbol ModulationConfig.default)).take
          (samples_per_symbol ModulationConfig.default) =
        generate_symbol ModulationConfig.default
          (if ([0x48].getD (3 / 8) 0).testBit (7 - 3 % 8) then
              (ModulationConfig.default.freq_1 : ℝ)
            else (ModulationConfig.default.freq_0 : ℝ))
          (3 == 0) (3 == 8 * [0x48].length - 1) :=
  ⟨(C8_encode_bytes_shape ModulationConfig.default [0x48]).1,
    by decide,
    (C8_encode_bytes_shape ModulationConfig.default [0x48]).2 3 (by decide)⟩

/-! Generic facts used to settle C1: bounds for a fold of `max`, the norm
of a geometric sum of unit-circle points, and numeric sine bounds. -/

theorem foldl_max_init_le (l : List ℝ) (a : ℝ) : a ≤ l.foldl max a := by
  induction l generalizing a with
  | nil => exact le_refl a
  | cons b t ih => exact le_trans (le_max_left a b) (ih (max a b))

theorem le_foldl_max (l : List ℝ) (a x : ℝ) (hx : x ∈ l) :
    x ≤ l.foldl max a := by
  induction l generalizing a with
  | nil => cases hx
  | cons b t ih =>
    rcases List.mem_cons.1 hx with rfl | hx2
    · exact le_trans (le_max_right a x) (foldl_max_init_le t (max a x))
    · exact ih (max a b) hx2

theorem foldl_max_le (l : List ℝ) (a b : ℝ) (ha : a ≤ b)
    (h : ∀ x ∈ l, x ≤ b) : l.foldl max a ≤ b := by
  induction l generalizing a with
  | nil => exact ha
  | cons c t ih =>
    exact ih (max a c) (max_le ha (h c (by simp)))
      (fun x hx => h x (by simp [hx]))

theorem exp_mul_I_sub_exp_neg (a : ℝ) :
    Complex.exp (a * Complex.I) - Complex.exp (-a * Complex.I) =
      2 * Complex.I * Real.sin a := by
  have h1 : Complex.exp ((a : ℂ) * Complex.I) =
      Complex.cos a + Complex.sin a * Complex.I := Complex.exp_mul_I _
  have h2 : Complex.exp (-(a : ℂ) * Complex.I) =
      Complex.cos a - Complex.sin a * Complex.I := by
    rw [Complex.exp_mul_I, Complex.cos_neg, Complex.sin_neg]
    ring
  rw [h1, h2, ← Complex.ofReal_sin]
  ring

theorem abs_exp_mul_I_sub_one (θ : ℝ) :
    Complex.abs (Complex.exp (θ * Complex.I) - 1) =
      2 * |Real.sin (θ / 2)| := by
  have hsplit : Complex.exp (θ * Complex.I) - 1 =
      Complex.exp ((θ / 2 : ℝ) * Complex.I) *
        (Complex.exp ((θ / 2 : ℝ) * Complex.I) -
          Complex.exp (-((θ / 2 : ℝ) : ℂ) * Complex.I)) := by
    rw [mul_sub, ← Complex.exp_add, ← Complex.exp_add]
    push_cast
    rw [show ((θ : ℂ) / 2 * Complex.I + θ / 2 * Complex.I) = θ * Complex.I
      from by ring,
      show ((θ : ℂ) / 2 * Complex.I + -(θ / 2) * Complex.I) = 0 from by ring,
      Complex.exp_zero]
  rw [hsplit, map_mul, Complex.abs_exp_ofReal_mul_I,
    exp_mul_I_sub_exp_neg (θ / 2), one_mul]
  rw [map_mul, map_mul, Complex.abs_two, Complex.abs_I, Complex.abs_ofReal]
  ring

theorem abs_geom_exp_sum (θ : ℝ) (N : ℕ) (h : Real.sin (θ / 2) ≠ 0) :
    Complex.abs (∑ n ∈ Finset.range N,
        Complex.exp ((θ * n : ℝ) * Complex.I)) =
      |Real.sin (N * θ / 2)| / |Real.sin (θ / 2)| := by
  have hx1 : Complex.exp ((θ : ℂ) * Complex.I) ≠ 1 := by
    intro hcontra
    have habs := abs_exp_mul_I_sub_one θ
    rw [hcontra, sub_self, map_zero] at habs
    have h0 : |Real.sin (θ / 2)| = 0 := by linarith
    exact h (abs_eq_zero.1 h0)
  have hterm : ∀ n : ℕ, Complex.exp (((θ * n : ℝ) : ℂ) * Complex.I) =
      Complex.exp ((θ : ℂ) * Complex.I) ^ n := by
    intro n
    rw [← Complex.exp_nat_mul]
    congr 1
    push_cast
    ring
  rw [Finset.sum_congr rfl (fun n _ => hterm n), geom_sum_eq hx1, map_div₀]
  rw [show Complex.exp ((θ : ℂ) * Complex.I) ^ N =
      Complex.exp (((N * θ : ℝ) : ℂ) * Complex.I) from by
    rw [← Complex.exp_nat_mul]
    congr 1
    push_cast
    ring]
  rw [abs_exp_mul_I_sub_one, abs_exp_mul_I_sub_one]
  rw [mul_div_mul_left _ _ (by norm_num : (2 : ℝ) ≠ 0)]

theorem sin_bound_aux {x l u : ℝ} (h1 : l ≤ x) (h2 : x ≤ u) (hl : 0 < l)
    (hu : u ≤ 1) : l - u ^ 3 / 4 < Real.sin x := by
  have hx0 : 0 < x := lt_of_lt_of_le hl h1
  have hcube := Real.sin_gt_sub_cube hx0 (le_trans h2 hu)
  have hx3 : x ^ 3 ≤ u ^ 3 := pow_le_pow_left₀ (le_of_lt hx0) h2 3
  nlinarith

theorem ramp_samples_default :
    ramp_samples ModulationConfig.default = 88 := by
  rw [ramp_samples,
    show ((ModulationConfig.default.sample_rate : ℚ) *
      ModulationConfig.default.ramp_duration) = 441 / 5 from by
        norm_num [ModulationConfig.default]]
  rw [Nat.floor_eq_iff (by norm_num)]
  norm_num

theorem freq_bin_default_0 :
    freq_bin ModulationConfig.default ModulationConfig.default.freq_0 = 208 := by
  rw [freq_bin, fft_size_default,
    show ModulationConfig.default.freq_0 = 18000 from rfl,
    show ((ModulationConfig.default.sample_rate : ℚ)) = 44100 from rfl]
  rw [Nat.floor_eq_iff (by positivity)]
  norm_num

theorem freq_bin_default_1 :
    freq_bin ModulationConfig.default ModulationConfig.default.freq_1 = 232 := by
  rw [freq_bin, fft_size_default,
    show ModulationConfig.default.freq_1 = 20000 from rfl,
    show ((ModulationConfig.default.sample_rate : ℚ)) = 44100 from rfl]
  rw [Nat.floor_eq_iff (by positivity)]
  norm_num

/-- The sample of `generate_symbol` at the default configuration, with the
default constants (441 samples per symbol, 88 ramp samples, 44100 Hz)
substituted. -/
noncomputable def symbol_sample (f : ℝ) (isf isl : Bool) (n : ℕ) : ℝ :=
  let base : ℝ := Real.sin (2 * Real.pi * f * ((n : ℝ) / 44100))
  let ramped_up : ℝ :=
    if isf = true ∧ n < 88 then base * ((n : ℝ) / 88) else base
  let ramped : ℝ :=
    if isl = true ∧ 353 ≤ n then
      ramped_up * (((441 - n : ℕ) : ℝ) / 88)
    else ramped_up
  ramped * 0.3

theorem generate_symbol_default_getD (f : ℝ) (isf isl : Bool) (n : ℕ)
    (hn : n < 441) :
    (generate_symbol ModulationConfig.default f isf isl).getD n 0 =
      symbol_sample f isf isl n := by
  rw [generate_symbol, samples_per_symbol_default, ramp_samples_default]
  rw [List.getD_eq_getElem?_getD, List.getElem?_map, List.getElem?_range hn]
  show (let t : ℝ := (n : ℝ) / ((ModulationConfig.default.sample_rate : ℕ) : ℝ); _) = _
  rw [symbol_sample]
  show ((if isl = true ∧ 441 - 88 ≤ n then _ else _) * (0.3 : ℝ)) = _
  norm_num [ModulationConfig.default]

/-- Pointwise deficit of the ramped sample against the pure sinusoid:
an upper bound on how much the edge ramps of `generate_symbol` can
reduce each sample. -/
noncomputable def ramp_deficit (isf isl : Bool) (n : ℕ) : ℝ :=
  (if isf = true ∧ n < 88 then 1 - (n : ℝ) / 88 else 0) +
  (if isl = true ∧ 353 ≤ n then 1 - (((441 - n : ℕ) : ℝ)) / 88 else 0)

theorem symbol_sample_close (f : ℝ) (isf isl : Bool) (n : ℕ) :
    |symbol_sample f isf isl n -
        0.3 * Real.sin (2 * Real.pi * f * ((n : ℝ) / 44100))| ≤
      0.3 * ramp_deficit isf isl n := by
  rw [symbol_sample, ramp_deficit]
  set s : ℝ := Real.sin (2 * Real.pi * f * ((n : ℝ) / 44100)) with hs
  have habs : |s| ≤ 1 := Real.abs_sin_le_one _
  split_ifs with hl hf hf
  · exact absurd hf.2 (by omega)
  · have hle : ((441 - n : ℕ) : ℝ) ≤ 88 := by
      have h : (441 - n : ℕ) ≤ 88 := by omega
      exact_mod_cast h
    have hge : (0 : ℝ) ≤ ((441 - n : ℕ) : ℝ) := by positivity
    have hdiv : ((441 - n : ℕ) : ℝ) / 88 ≤ 1 := by
      rw [div_le_one (by norm_num)]; exact hle
    rw [show s * (((441 - n : ℕ) : ℝ) / 88) * 0.3 - 0.3 * s =
      -(0.3 * s * (1 - ((441 - n : ℕ) : ℝ) / 88)) from by ring, abs_neg,
      abs_mul, abs_mul,
      abs_of_nonneg (by linarith : (0:ℝ) ≤ 1 - ((441 - n : ℕ) : ℝ) / 88)]
    have h03 : |(0.3 : ℝ)| = 0.3 := by norm_num
    rw [h03, show (0.3 : ℝ) * (0 + (1 - ((441 - n : ℕ) : ℝ) / 88)) =
      0.3 * (1 - ((441 - n : ℕ) : ℝ) / 88) from by ring]
    nlinarith [abs_nonneg s]
  · have hn88 : (n : ℝ) / 88 ≤ 1 := by
      rw [div_le_one (by norm_num)]
      exact_mod_cast le_of_lt hf.2
    have hn0 : (0 : ℝ) ≤ (n : ℝ) / 88 := by positivity
    rw [show s * ((n : ℝ) / 88) * 0.3 - 0.3 * s =
      -(0.3 * s * (1 - (n : ℝ) / 88)) from by ring, abs_neg, abs_mul,
      abs_mul, abs_of_nonneg (by linarith : (0:ℝ) ≤ 1 - (n : ℝ) / 88)]
    have h03 : |(0.3 : ℝ)| = 0.3 := by norm_num
    rw [h03, show (0.3 : ℝ) * (1 - (n : ℝ) / 88 + 0) =
      0.3 * (1 - (n : ℝ) / 88) from by ring]
    nlinarith [abs_nonneg s]
  · simp only [show s * 0.3 - 0.3 * s = 0 from by ring, abs_zero]
    norm_num

theorem sum_range_88 : (∑ n ∈ Finset.range 88, n) = 3828 := by decide

theorem ramp_deficit_sum_first :
    ∑ n ∈ Finset.range 441, (if n < 88 then 1 - (n : ℝ) / 88 else 0) =
      44.5 := by
  rw [← Finset.sum_subset (Finset.range_subset.2 (by norm_num :
      (88 : ℕ) ≤ 441))
    (fun x _ hx => if_neg (by simpa using hx))]
  rw [Finset.sum_congr rfl (fun x hx =>
    if_pos (Finset.mem_range.1 hx))]
  rw [Finset.sum_sub_distrib, Finset.sum_const, Finset.card_range]
  have hcast : ∑ n ∈ Finset.range 88, ((n : ℝ) / 88) =
      (∑ n ∈ Finset.range 88, (n : ℕ) : ℕ) / 88 := by
    rw [← Finset.sum_div]
    push_cast
    rfl
  rw [hcast, sum_range_88]
  norm_num

theorem ramp_deficit_sum_last :
    ∑ n ∈ Finset.range 441,
      (if 353 ≤ n then 1 - (((441 - n : ℕ) : ℝ)) / 88 else 0) = 43.5 := by
  have hsplit : Finset.range 441 = Finset.Ico 0 441 := by
    rw [Finset.range_eq_Ico]
  rw [hsplit, ← Finset.sum_Ico_consecutive _ (by norm_num : (0:ℕ) ≤ 353)
    (by norm_num : (353:ℕ) ≤ 441)]
  rw [show ∑ n ∈ Finset.Ico 0 353,
      (if 353 ≤ n then 1 - (((441 - n : ℕ) : ℝ)) / 88 else 0) = 0 from
    Finset.sum_eq_zero (fun x hx => if_neg (by
      have := (Finset.mem_Ico.1 hx).2; omega))]
  rw [zero_add]
  rw [Finset.sum_congr rfl (fun x hx =>
    if_pos (Finset.mem_Ico.1 hx).1)]
  rw [Finset.sum_Ico_eq_sum_range]
  have hterm : ∀ i ∈ Finset.range (441 - 353),
      (1 - (((441 - (353 + i) : ℕ) : ℝ)) / 88) = (i : ℝ) / 88 := by
    intro i hi
    have hi88 : i < 88 := by simpa using hi
    have h1 : (441 - (353 + i) : ℕ) = 88 - i := by omega
    rw [h1, Nat.cast_sub (by omega : i ≤ 88)]
    push_cast
    ring
  rw [Finset.sum_congr rfl hterm]
  have hcast : ∑ i ∈ Finset.range (441 - 353), ((i : ℝ) / 88) =
      (∑ n ∈ Finset.range 88, (n : ℕ) : ℕ) / 88 := by
    rw [← Finset.sum_div]
    push_cast
    rfl
  rw [hcast, sum_range_88]
  norm_num

theorem ramp_deficit_sum (isf isl : Bool)
    (hnb : ¬(isf = true ∧ isl = true)) :
    ∑ n ∈ Finset.range 441, ramp_deficit isf isl n ≤ 44.5 := by
  unfold ramp_deficit
  rw [Finset.sum_add_distrib]
  rcases isf with _ | _ <;> rcases isl with _ | _
  · simp
    norm_num
  · simp only [Bool.false_eq_true, false_and, if_false,
      Finset.sum_const_zero, zero_add, true_and]
    rw [ramp_deficit_sum_last]
    norm_num
  · simp only [Bool.false_eq_true, false_and, if_false,
      Finset.sum_const_zero, add_zero, true_and]
    rw [ramp_deficit_sum_first]
  · exact absurd ⟨rfl, rfl⟩ hnb

/-- The geometric exponential sum appearing in the DFT of a pure tone. -/
noncomputable def geom_exp_sum (ψ : ℝ) (N : ℕ) : ℂ :=
  ∑ n ∈ Finset.range N, Complex.exp (((ψ * (n : ℝ) : ℝ) : ℂ) * Complex.I)

theorem dft_length (x : List ℂ) : (dft x).length = x.length := by
  rw [dft, List.length_map, List.length_range]

theorem dft_pad_getD (samples : List ℝ) (hlen : samples.length = 441)
    (k : ℕ) (hk : k < 512) :
    (dft ((samples.map (fun (s : ℝ) => (s : ℂ))) ++
        List.replicate (512 - samples.length) 0)).getD k 0 =
      ∑ n ∈ Finset.range 441, (samples.getD n 0 : ℂ) *
        Complex.exp ((((-(2 * Real.pi * (k : ℝ) / 512)) * (n : ℝ) : ℝ) :
          ℂ) * Complex.I) := by
  set L : List ℂ := (samples.map (fun (s : ℝ) => (s : ℂ))) ++
    List.replicate (512 - samples.length) 0 with hL
  have hLlen : L.length = 512 := by
    rw [hL, List.length_append, List.length_map, List.length_replicate,
      hlen]
  have hgetd : ∀ n : ℕ, n < 441 →
      L.getD n 0 = ((samples.getD n 0 : ℝ) : ℂ) := by
    intro n hn
    rw [hL, List.getD_eq_getElem?_getD, List.getElem?_append_left
      (by rw [List.length_map, hlen]; exact hn), List.getElem?_map]
    rw [List.getD_eq_getElem?_getD]
    rcases List.getElem?_eq_getElem (by rw [hlen]; exact hn :
      n < samples.length) with h
    rw [h]
    rfl
  have hgetd0 : ∀ n : ℕ, 441 ≤ n → n < 512 → L.getD n 0 = 0 := by
    intro n h1 h2
    rw [hL, List.getD_eq_getElem?_getD, List.getElem?_append_right
      (by rw [List.length_map, hlen]; exact h1)]
    rw [List.getElem?_replicate, List.length_map, hlen]
    rw [if_pos (by omega : n - 441 < 512 - 441)]
    rfl
  rw [dft, List.getD_eq_getElem?_getD, List.getElem?_map,
    List.getElem?_range (by rw [hLlen]; exact hk : k < L.length)]
  show (∑ n ∈ Finset.range L.length, L.getD n 0 *
    Complex.exp (-(2 * Real.pi * Complex.I) * (k : ℂ) * (n : ℂ) /
      (L.length : ℂ))) = _
  rw [hLlen]
  rw [← Finset.sum_subset (Finset.range_subset.2 (by norm_num :
      (441 : ℕ) ≤ 512))
    (fun n hn hn441 => by
      rw [hgetd0 n (by simpa using hn441) (Finset.mem_range.1 hn),
        zero_mul])]
  refine Finset.sum_congr rfl (fun n hn => ?_)
  rw [hgetd n (Finset.mem_range.1 hn)]
  congr 1
  push_cast
  ring_nf

theorem geom_exp_sum_abs (ψ : ℝ) (N : ℕ) (h : Real.sin (ψ / 2) ≠ 0) :
    Complex.abs (geom_exp_sum ψ N) =
      |Real.sin (N * ψ / 2)| / |Real.sin (ψ / 2)| := by
  rw [geom_exp_sum]
  exact abs_geom_exp_sum ψ N h

theorem sin_mul_exp_term (x θ : ℝ) :
    ((Real.sin x : ℝ) : ℂ) * Complex.exp (((θ : ℝ) : ℂ) * Complex.I) =
      Complex.I / 2 *
        (Complex.exp (((θ - x : ℝ) : ℂ) * Complex.I) -
          Complex.exp (((θ + x : ℝ) : ℂ) * Complex.I)) := by
  have hsin := exp_mul_I_sub_exp_neg x
  have hm : Complex.exp (((θ - x : ℝ) : ℂ) * Complex.I) =
      Complex.exp ((-x : ℂ) * Complex.I) *
        Complex.exp (((θ : ℝ) : ℂ) * Complex.I) := by
    rw [← Complex.exp_add]
    congr 1
    push_cast
    ring
  have hp : Complex.exp (((θ + x : ℝ) : ℂ) * Complex.I) =
      Complex.exp ((x : ℂ) * Complex.I) *
        Complex.exp (((θ : ℝ) : ℂ) * Complex.I) := by
    rw [← Complex.exp_add]
    congr 1
    push_cast
    ring
  rw [hm, hp]
  have hI : (Complex.I : ℂ) * Complex.I = -1 := Complex.I_mul_I
  have : ((Real.sin x : ℝ) : ℂ) * (2 * Complex.I) =
      Complex.exp ((x : ℂ) * Complex.I) -
        Complex.exp ((-x : ℂ) * Complex.I) := by
    rw [hsin]; ring
  calc ((Real.sin x : ℝ) : ℂ) * Complex.exp (((θ : ℝ) : ℂ) * Complex.I)
      = (((Real.sin x : ℝ) : ℂ) * (2 * Complex.I)) *
          Complex.exp (((θ : ℝ) : ℂ) * Complex.I) * Complex.I / 2 *
          (-1) := by
        rw [show ((Real.sin x : ℝ) : ℂ) * (2 * Complex.I) *
          Complex.exp (((θ : ℝ) : ℂ) * Complex.I) * Complex.I / 2 * (-1) =
          ((Real.sin x : ℝ) : ℂ) * Complex.exp (((θ : ℝ) : ℂ) * Complex.I)
            * (Complex.I * Complex.I) * (-1) from by ring, hI]
        ring
    _ = Complex.I / 2 *
        (Complex.exp ((-x : ℂ) * Complex.I) *
            Complex.exp (((θ : ℝ) : ℂ) * Complex.I) -
          Complex.exp ((x : ℂ) * Complex.I) *
            Complex.exp (((θ : ℝ) : ℂ) * Complex.I)) := by
        rw [this]
        ring

theorem dft_symbol_close (f : ℝ) (isf isl : Bool)
    (hnb : ¬(isf = true ∧ isl = true)) (k : ℕ) (hk : k < 512) :
    Complex.abs
      ((dft (((generate_symbol ModulationConfig.default f isf isl).map
          (fun (s : ℝ) => (s : ℂ))) ++
        List.replicate
          (512 -
            (generate_symbol ModulationConfig.default f isf isl).length)
          0)).getD k 0 -
        0.15 * Complex.I *
          (geom_exp_sum
              (-(2 * Real.pi * (k : ℝ) / 512) - 2 * Real.pi * f / 44100)
              441 -
            geom_exp_sum
              (-(2 * Real.pi * (k : ℝ) / 512) + 2 * Real.pi * f / 44100)
              441)) ≤ 13.35 := by
  set sym : List ℝ := generate_symbol ModulationConfig.default f isf isl
    with hsym
  have hlen : sym.length = 441 := by
    rw [hsym, generate_symbol_length, samples_per_symbol_default]
  rw [dft_pad_getD sym hlen k hk]
  set θ : ℝ := -(2 * Real.pi * (k : ℝ) / 512) with hθ
  set ω : ℝ := 2 * Real.pi * f / 44100 with hω
  have hG : (0.15 : ℂ) * Complex.I *
      (geom_exp_sum (θ - ω) 441 - geom_exp_sum (θ + ω) 441) =
      ∑ n ∈ Finset.range 441,
        ((0.3 * Real.sin (ω * (n : ℝ)) : ℝ) : ℂ) *
          Complex.exp (((θ * (n : ℝ) : ℝ) : ℂ) * Complex.I) := by
    rw [geom_exp_sum, geom_exp_sum, ← Finset.sum_sub_distrib,
      Finset.mul_sum]
    refine Finset.sum_congr rfl (fun n hn => ?_)
    rw [show (((θ - ω) * (n : ℝ) : ℝ) : ℂ) =
      ((θ * (n : ℝ) - ω * (n : ℝ) : ℝ) : ℂ) from by push_cast; ring]
    rw [show (((θ + ω) * (n : ℝ) : ℝ) : ℂ) =
      ((θ * (n : ℝ) + ω * (n : ℝ) : ℝ) : ℂ) from by push_cast; ring]
    have hkey := sin_mul_exp_term (ω * (n : ℝ)) (θ * (n : ℝ))
    rw [show ((0.3 * Real.sin (ω * (n : ℝ)) : ℝ) : ℂ) =
      (0.3 : ℂ) * ((Real.sin (ω * (n : ℝ)) : ℝ) : ℂ) from by
        rw [Complex.ofReal_mul]; norm_num]
    linear_combination (-0.3 : ℂ) * hkey
  rw [hG, ← Finset.sum_sub_distrib]
  have hterm : ∀ n ∈ Finset.range 441,
      ((sym.getD n 0 : ℂ) *
          Complex.exp (((θ * (n : ℝ) : ℝ) : ℂ) * Complex.I) -
        ((0.3 * Real.sin (ω * (n : ℝ)) : ℝ) : ℂ) *
          Complex.exp (((θ * (n : ℝ) : ℝ) : ℂ) * Complex.I)) =
      ((sym.getD n 0 - 0.3 * Real.sin (ω * (n : ℝ)) : ℝ) : ℂ) *
        Complex.exp (((θ * (n : ℝ) : ℝ) : ℂ) * Complex.I) := by
    intro n hn
    push_cast
    ring
  rw [Finset.sum_congr rfl hterm]
  calc Complex.abs (∑ n ∈ Finset.range 441,
      ((sym.getD n 0 - 0.3 * Real.sin (ω * (n : ℝ)) : ℝ) : ℂ) *
        Complex.exp (((θ * (n : ℝ) : ℝ) : ℂ) * Complex.I))
      ≤ ∑ n ∈ Finset.range 441, Complex.abs
        (((sym.getD n 0 - 0.3 * Real.sin (ω * (n : ℝ)) : ℝ) : ℂ) *
          Complex.exp (((θ * (n : ℝ) : ℝ) : ℂ) * Complex.I)) :=
        Complex.abs.sum_le _ _
    _ ≤ ∑ n ∈ Finset.range 441, 0.3 * ramp_deficit isf isl n := by
        refine Finset.sum_le_sum (fun n hn => ?_)
        rw [map_mul, Complex.abs_exp_ofReal_mul_I, mul_one,
          Complex.abs_ofReal]
        have hget : sym.getD n 0 = symbol_sample f isf isl n := by
          rw [hsym]
          exact generate_symbol_default_getD f isf isl n
            (Finset.mem_range.1 hn)
        rw [hget]
        have harg : ω * (n : ℝ) =
            2 * Real.pi * f * ((n : ℝ) / 44100) := by
          rw [hω]; ring
        rw [harg]
        exact symbol_sample_close f isf isl n
    _ = 0.3 * ∑ n ∈ Finset.range 441, ramp_deficit isf isl n := by
        rw [Finset.mul_sum]
    _ ≤ 13.35 := by
        have hsum := ramp_deficit_sum isf isl hnb
        nlinarith

theorem sin_pi_mul_bounds (c l u : ℝ) (hc : 0 < c) (hl : l ≤ 3.141592 * c)
    (hu : 3.141593 * c ≤ u) (hl0 : 0 < l) (hu1 : u ≤ 1) :
    l - u ^ 3 / 4 < Real.sin (Real.pi * c) := by
  have hπl : (3.141592 : ℝ) < Real.pi := Real.pi_gt_d6
  have hπu : Real.pi < 3.141593 := Real.pi_lt_d6
  refine sin_bound_aux ?_ ?_ hl0 hu1
  · nlinarith
  · nlinarith

theorem sin_pi_mul_upper (c u : ℝ) (hc : 0 < c) (hu : 3.141593 * c ≤ u) :
    Real.sin (Real.pi * c) ≤ u := by
  have hπu : Real.pi < 3.141593 := Real.pi_lt_d6
  have h := Real.sin_lt (show (0 : ℝ) < Real.pi * c from by positivity)
  nlinarith

theorem abs_G_le (ψ s : ℝ) (N : ℕ) (hs : 0 < s)
    (hsin : s ≤ |Real.sin (ψ / 2)|) :
    Complex.abs (geom_exp_sum ψ N) ≤ 1 / s := by
  rw [geom_exp_sum_abs ψ N (fun h0 => by
    rw [h0, abs_zero] at hsin
    linarith)]
  exact div_le_div₀ (by norm_num) (abs_le.mpr
    ⟨neg_le_of_neg_le (by linarith [Real.neg_one_le_sin ((N : ℝ) * ψ / 2)]),
      Real.sin_le_one _⟩) hs hsin

theorem abs_G_ge (ψ a d : ℝ) (N : ℕ) (ha : a ≤ |Real.sin ((N : ℝ) * ψ / 2)|)
    (hd : |Real.sin (ψ / 2)| ≤ d) (hd0 : 0 < |Real.sin (ψ / 2)|) :
    a / d ≤ Complex.abs (geom_exp_sum ψ N) := by
  rw [geom_exp_sum_abs ψ N (fun h0 => by
    rw [h0, abs_zero] at hd0
    exact lt_irrefl 0 hd0)]
  exact div_le_div₀ (abs_nonneg _) ha hd0 hd

theorem abs_sin_neg_pi (c : ℝ) :
    |Real.sin (-(Real.pi * c))| = |Real.sin (Real.pi * c)| := by
  rw [Real.sin_neg, abs_neg]

theorem G0_peak_plus :
    (440 : ℝ) ≤ Complex.abs (geom_exp_sum
      (-(2 * Real.pi * 209 / 512) + 2 * Real.pi * 18000 / 44100) 441) := by
  have hψ : -(2 * Real.pi * (209 : ℝ) / 512) + 2 * Real.pi * 18000 / 44100
      = Real.pi * (-(1 / 12544)) := by ring
  rw [hψ]
  have hdpos : (0 : ℝ) < Real.sin (Real.pi * (1 / 25088)) := by
    have hlb := sin_pi_mul_bounds (1 / 25088) 0.000125 0.000126
      (by norm_num) (by norm_num) (by norm_num) (by norm_num) (by norm_num)
    nlinarith
  have hnum : (0.05517 : ℝ) ≤
      |Real.sin (((441 : ℕ) : ℝ) * (Real.pi * (-(1 / 12544))) / 2)| := by
    have harg : ((441 : ℕ) : ℝ) * (Real.pi * (-(1 / 12544))) / 2 =
        -(Real.pi * (9 / 512)) := by push_cast; ring
    rw [harg, abs_sin_neg_pi]
    have hlb := sin_pi_mul_bounds (9 / 512) 0.05522 0.0553
      (by norm_num) (by norm_num) (by norm_num) (by norm_num) (by norm_num)
    have hpos : 0 < Real.sin (Real.pi * (9 / 512)) := by nlinarith
    rw [abs_of_pos hpos]
    nlinarith
  have harg2 : (Real.pi * (-(1 / 12544))) / 2 =
      -(Real.pi * (1 / 25088)) := by ring
  have hden : |Real.sin ((Real.pi * (-(1 / 12544))) / 2)| ≤ 0.00012523 := by
    rw [harg2, abs_sin_neg_pi, abs_of_pos hdpos]
    exact sin_pi_mul_upper (1 / 25088) 0.00012523 (by norm_num) (by norm_num)
  have hd0 : 0 < |Real.sin ((Real.pi * (-(1 / 12544))) / 2)| := by
    rw [harg2, abs_sin_neg_pi, abs_of_pos hdpos]
    exact hdpos
  calc (440 : ℝ) ≤ 0.05517 / 0.00012523 := by norm_num
    _ ≤ _ := abs_G_ge _ 0.05517 0.00012523 441 hnum hden hd0

theorem G0_peak_minus :
    Complex.abs (geom_exp_sum
      (-(2 * Real.pi * 209 / 512) - 2 * Real.pi * 18000 / 44100) 441) ≤
      1.8911 := by
  have hψ : -(2 * Real.pi * (209 : ℝ) / 512) - 2 * Real.pi * 18000 / 44100
      = Real.pi * (-(20481 / 12544)) := by ring
  rw [hψ]
  have hsin : (0.5288 : ℝ) ≤ Real.sin (Real.pi * (4607 / 25088)) := by
    have hlb := sin_pi_mul_bounds (4607 / 25088) 0.5769 0.57691
      (by norm_num) (by norm_num) (by norm_num) (by norm_num) (by norm_num)
    nlinarith
  have harg : (Real.pi * (-(20481 / 12544))) / 2 =
      -(Real.pi * (20481 / 25088)) := by ring
  have hflip : Real.sin (Real.pi * (20481 / 25088)) =
      Real.sin (Real.pi * (4607 / 25088)) := by
    rw [show Real.pi * (20481 / 25088) =
      Real.pi - Real.pi * (4607 / 25088) from by ring, Real.sin_pi_sub]
  have habs : (0.5288 : ℝ) ≤
      |Real.sin ((Real.pi * (-(20481 / 12544))) / 2)| := by
    rw [harg, abs_sin_neg_pi, hflip, abs_of_nonneg (by linarith)]
    exact hsin
  calc Complex.abs (geom_exp_sum (Real.pi * (-(20481 / 12544))) 441) ≤
      1 / 0.5288 := abs_G_le _ 0.5288 441 (by norm_num) habs
    _ ≤ 1.8911 := by norm_num

theorem G0_side_plus (k : ℕ) (h1 : 229 ≤ k) (h2 : k ≤ 235) :
    Complex.abs (geom_exp_sum
      (-(2 * Real.pi * (k : ℝ) / 512) + 2 * Real.pi * 18000 / 44100)
      441) ≤ 8.217 := by
  have hk1 : (229 : ℝ) ≤ (k : ℝ) := by exact_mod_cast h1
  have hk2 : ((k : ℝ)) ≤ 235 := by exact_mod_cast h2
  obtain ⟨c, hc⟩ : ∃ c : ℝ, c = (k : ℝ) / 512 - 20 / 49 := ⟨_, rfl⟩
  have hcl : (981 : ℝ) / 25088 ≤ c := by rw [hc]; linarith
  have hcu : c ≤ 1275 / 25088 := by rw [hc]; linarith
  have hψ : -(2 * Real.pi * (k : ℝ) / 512) + 2 * Real.pi * 18000 / 44100 =
      Real.pi * (-(2 * c)) := by rw [hc]; ring
  rw [hψ]
  have hlb := sin_pi_mul_bounds c 0.1228 0.1597 (by linarith)
    (by nlinarith) (by nlinarith) (by norm_num) (by norm_num)
  have harg : (Real.pi * (-(2 * c))) / 2 = -(Real.pi * c) := by ring
  have habs : (0.1217 : ℝ) ≤ |Real.sin ((Real.pi * (-(2 * c))) / 2)| := by
    rw [harg, abs_sin_neg_pi, abs_of_pos (by nlinarith)]
    nlinarith
  calc Complex.abs (geom_exp_sum (Real.pi * (-(2 * c))) 441) ≤
      1 / 0.1217 := abs_G_le _ 0.1217 441 (by norm_num) habs
    _ ≤ 8.217 := by norm_num

theorem G0_side_minus (k : ℕ) (h1 : 229 ≤ k) (h2 : k ≤ 235) :
    Complex.abs (geom_exp_sum
      (-(2 * Real.pi * (k : ℝ) / 512) - 2 * Real.pi * 18000 / 44100)
      441) ≤ 2.54 := by
  have hk1 : (229 : ℝ) ≤ (k : ℝ) := by exact_mod_cast h1
  have hk2 : ((k : ℝ)) ≤ 235 := by exact_mod_cast h2
  obtain ⟨e, he⟩ : ∃ e : ℝ, e = (k : ℝ) / 512 + 20 / 49 := ⟨_, rfl⟩
  have hel : (3333 : ℝ) / 25088 ≤ 1 - e := by rw [he]; linarith
  have heu : 1 - e ≤ 3627 / 25088 := by rw [he]; linarith
  have hψ : -(2 * Real.pi * (k : ℝ) / 512) - 2 * Real.pi * 18000 / 44100 =
      Real.pi * (-(2 * e)) := by rw [he]; ring
  rw [hψ]
  have hflip : Real.sin (Real.pi * e) = Real.sin (Real.pi * (1 - e)) := by
    rw [show Real.pi * e = Real.pi - Real.pi * (1 - e) from by ring,
      Real.sin_pi_sub]
  have hlb := sin_pi_mul_bounds (1 - e) 0.4173 0.4543 (by linarith)
    (by nlinarith) (by nlinarith) (by norm_num) (by norm_num)
  have harg : (Real.pi * (-(2 * e))) / 2 = -(Real.pi * e) := by ring
  have habs : (0.3938 : ℝ) ≤ |Real.sin ((Real.pi * (-(2 * e))) / 2)| := by
    rw [harg, abs_sin_neg_pi, hflip, abs_of_pos (by nlinarith)]
    nlinarith
  calc Complex.abs (geom_exp_sum (Real.pi * (-(2 * e))) 441) ≤
      1 / 0.3938 := abs_G_le _ 0.3938 441 (by norm_num) habs
    _ ≤ 2.54 := by norm_num

theorem G1_peak_plus :
    (408 : ℝ) ≤ Complex.abs (geom_exp_sum
      (-(2 * Real.pi * 232 / 512) + 2 * Real.pi * 20000 / 44100) 441) := by
  have hψ : -(2 * Real.pi * (232 : ℝ) / 512) + 2 * Real.pi * 20000 / 44100
      = Real.pi * (11 / 14112) := by ring
  rw [hψ]
  have hdpos : (0 : ℝ) < Real.sin (Real.pi * (11 / 28224)) := by
    have hlb := sin_pi_mul_bounds (11 / 28224) 0.001 0.00123
      (by norm_num) (by norm_num) (by norm_num) (by norm_num) (by norm_num)
    nlinarith
  have hnum : (0.5005 : ℝ) ≤
      |Real.sin (((441 : ℕ) : ℝ) * (Real.pi * (11 / 14112)) / 2)| := by
    have harg : ((441 : ℕ) : ℝ) * (Real.pi * (11 / 14112)) / 2 =
        Real.pi * (11 / 64) := by push_cast; ring
    rw [harg]
    have hlb := sin_pi_mul_bounds (11 / 64) 0.53996 0.53997
      (by norm_num) (by norm_num) (by norm_num) (by norm_num) (by norm_num)
    have hpos : 0 < Real.sin (Real.pi * (11 / 64)) := by nlinarith
    rw [abs_of_pos hpos]
    nlinarith
  have harg2 : (Real.pi * (11 / 14112)) / 2 = Real.pi * (11 / 28224) := by
    ring
  have hden : |Real.sin ((Real.pi * (11 / 14112)) / 2)| ≤ 0.0012245 := by
    rw [harg2, abs_of_pos hdpos]
    exact sin_pi_mul_upper (11 / 28224) 0.0012245 (by norm_num)
      (by norm_num)
  have hd0 : 0 < |Real.sin ((Real.pi * (11 / 14112)) / 2)| := by
    rw [harg2, abs_of_pos hdpos]
    exact hdpos
  calc (408 : ℝ) ≤ 0.5005 / 0.0012245 := by norm_num
    _ ≤ _ := abs_G_ge _ 0.5005 0.0012245 441 hnum hden hd0

theorem G1_peak_minus :
    Complex.abs (geom_exp_sum
      (-(2 * Real.pi * 232 / 512) - 2 * Real.pi * 20000 / 44100) 441) ≤
      3.486 := by
  have hψ : -(2 * Real.pi * (232 : ℝ) / 512) - 2 * Real.pi * 20000 / 44100
      = Real.pi * (-(2 * (204712 / 225792))) := by ring
  rw [hψ]
  have hflip : Real.sin (Real.pi * (204712 / 225792)) =
      Real.sin (Real.pi * (21080 / 225792)) := by
    rw [show Real.pi * ((204712 : ℝ) / 225792) =
      Real.pi - Real.pi * (21080 / 225792) from by ring, Real.sin_pi_sub]
  have hlb := sin_pi_mul_bounds ((21080 : ℝ) / 225792) 0.29329 0.29330
    (by norm_num) (by norm_num) (by norm_num) (by norm_num) (by norm_num)
  have harg : (Real.pi * (-(2 * ((204712 : ℝ) / 225792)))) / 2 =
      -(Real.pi * (204712 / 225792)) := by ring
  have habs : (0.2869 : ℝ) ≤
      |Real.sin ((Real.pi * (-(2 * ((204712 : ℝ) / 225792)))) / 2)| := by
    rw [harg, abs_sin_neg_pi, hflip, abs_of_pos (by nlinarith)]
    nlinarith
  calc Complex.abs (geom_exp_sum
      (Real.pi * (-(2 * ((204712 : ℝ) / 225792)))) 441) ≤
      1 / 0.2869 := abs_G_le _ 0.2869 441 (by norm_num) habs
    _ ≤ 3.486 := by norm_num

theorem G1_side_plus (k : ℕ) (h1 : 205 ≤ k) (h2 : k ≤ 211) :
    Complex.abs (geom_exp_sum
      (-(2 * Real.pi * (k : ℝ) / 512) + 2 * Real.pi * 20000 / 44100)
      441) ≤ 7.759 := by
  have hk1 : (205 : ℝ) ≤ (k : ℝ) := by exact_mod_cast h1
  have hk2 : ((k : ℝ)) ≤ 211 := by exact_mod_cast h2
  obtain ⟨c, hc⟩ : ∃ c : ℝ, c = 200 / 441 - (k : ℝ) / 512 := ⟨_, rfl⟩
  have hcl : (9349 : ℝ) / 225792 ≤ c := by rw [hc]; linarith
  have hcu : c ≤ 11995 / 225792 := by rw [hc]; linarith
  have hψ : -(2 * Real.pi * (k : ℝ) / 512) + 2 * Real.pi * 20000 / 44100 =
      Real.pi * (2 * c) := by rw [hc]; ring
  rw [hψ]
  have hlb := sin_pi_mul_bounds c 0.13007 0.1669 (by linarith)
    (by nlinarith) (by nlinarith) (by norm_num) (by norm_num)
  have harg : (Real.pi * (2 * c)) / 2 = Real.pi * c := by ring
  have habs : (0.1289 : ℝ) ≤ |Real.sin ((Real.pi * (2 * c)) / 2)| := by
    rw [harg, abs_of_pos (by nlinarith)]
    nlinarith
  calc Complex.abs (geom_exp_sum (Real.pi * (2 * c)) 441) ≤
      1 / 0.1289 := abs_G_le _ 0.1289 441 (by norm_num) habs
    _ ≤ 7.759 := by norm_num

theorem G1_side_minus (k : ℕ) (h1 : 205 ≤ k) (h2 : k ≤ 211) :
    Complex.abs (geom_exp_sum
      (-(2 * Real.pi * (k : ℝ) / 512) - 2 * Real.pi * 20000 / 44100)
      441) ≤ 2.514 := by
  have hk1 : (205 : ℝ) ≤ (k : ℝ) := by exact_mod_cast h1
  have hk2 : ((k : ℝ)) ≤ 211 := by exact_mod_cast h2
  obtain ⟨e, he⟩ : ∃ e : ℝ, e = (k : ℝ) / 512 + 200 / 441 := ⟨_, rfl⟩
  have hel : (30341 : ℝ) / 225792 ≤ 1 - e := by rw [he]; linarith
  have heu : 1 - e ≤ 32987 / 225792 := by rw [he]; linarith
  have hψ : -(2 * Real.pi * (k : ℝ) / 512) - 2 * Real.pi * 20000 / 44100 =
      Real.pi * (-(2 * e)) := by rw [he]; ring
  rw [hψ]
  have hflip : Real.sin (Real.pi * e) = Real.sin (Real.pi * (1 - e)) := by
    rw [show Real.pi * e = Real.pi - Real.pi * (1 - e) from by ring,
      Real.sin_pi_sub]
  have hlb := sin_pi_mul_bounds (1 - e) 0.42215 0.459 (by linarith)
    (by nlinarith) (by nlinarith) (by norm_num) (by norm_num)
  have harg : (Real.pi * (-(2 * e))) / 2 = -(Real.pi * e) := by ring
  have habs : (0.3979 : ℝ) ≤ |Real.sin ((Real.pi * (-(2 * e))) / 2)| := by
    rw [harg, abs_sin_neg_pi, hflip, abs_of_pos (by nlinarith)]
    nlinarith
  calc Complex.abs (geom_exp_sum (Real.pi * (-(2 * e))) 441) ≤
      1 / 0.3979 := abs_G_le _ 0.3979 441 (by norm_num) habs
    _ ≤ 2.514 := by norm_num

theorem abs_scaled_diff (Gm Gp : ℂ) :
    Complex.abs (0.15 * Complex.I * (Gm - Gp)) =
      0.15 * Complex.abs (Gm - Gp) := by
  rw [map_mul, map_mul, Complex.abs_I, mul_one]
  congr 1
  rw [show (0.15 : ℂ) = ((0.15 : ℝ) : ℂ) from by norm_num,
    Complex.abs_ofReal]
  norm_num

theorem spectrum_peak_bound (X Gm Gp : ℂ) (B gm gp : ℝ)
    (hclose : Complex.abs (X - 0.15 * Complex.I * (Gm - Gp)) ≤ 13.35)
    (hGp : gp ≤ Complex.abs Gp) (hGm : Complex.abs Gm ≤ gm)
    (hB : B ≤ 0.15 * (gp - gm) - 13.35) (hB0 : 0 ≤ B) :
    B ^ 2 ≤ Complex.normSq X := by
  set Z : ℂ := 0.15 * Complex.I * (Gm - Gp) with hZdef
  have hZ : Complex.abs Z = 0.15 * Complex.abs (Gm - Gp) :=
    abs_scaled_diff Gm Gp
  have hdiff : Complex.abs Gp - Complex.abs Gm ≤
      Complex.abs (Gm - Gp) := by
    have h := norm_sub_norm_le Gp Gm
    rw [Complex.norm_eq_abs, Complex.norm_eq_abs, Complex.norm_eq_abs]
      at h
    rw [Complex.abs.map_sub Gm Gp]
    exact h
  have htri : Complex.abs Z - Complex.abs (Z - X) ≤ Complex.abs X := by
    have h := norm_sub_norm_le Z (Z - X)
    rw [show Z - (Z - X) = X from by ring] at h
    rw [Complex.norm_eq_abs, Complex.norm_eq_abs, Complex.norm_eq_abs]
      at h
    exact h
  have hZX : Complex.abs (Z - X) ≤ 13.35 := by
    rw [Complex.abs.map_sub Z X]
    exact hclose
  have hXB : B ≤ Complex.abs X := by
    have h1 : 0.15 * (gp - gm) ≤ Complex.abs Z := by
      rw [hZ]
      nlinarith
    linarith
  rw [← Complex.sq_abs]
  nlinarith [Complex.abs.nonneg X]

theorem spectrum_side_bound (X Gm Gp : ℂ) (gm gp : ℝ)
    (hclose : Complex.abs (X - 0.15 * Complex.I * (Gm - Gp)) ≤ 13.35)
    (hGp : Complex.abs Gp ≤ gp) (hGm : Complex.abs Gm ≤ gm)
    (hbound : 0.15 * (gm + gp) + 13.35 ≤ 15) :
    Complex.normSq X ≤ 225 := by
  set Z : ℂ := 0.15 * Complex.I * (Gm - Gp) with hZdef
  have hZ : Complex.abs Z = 0.15 * Complex.abs (Gm - Gp) :=
    abs_scaled_diff Gm Gp
  have hsub : Complex.abs (Gm - Gp) ≤ gm + gp := by
    calc Complex.abs (Gm - Gp) ≤
        Complex.abs Gm + Complex.abs (-Gp) := by
          rw [show Gm - Gp = Gm + -Gp from by ring]
          exact Complex.abs.add_le Gm (-Gp)
      _ = Complex.abs Gm + Complex.abs Gp := by
          rw [Complex.abs.map_neg]
      _ ≤ gm + gp := by linarith
  have htri : Complex.abs X ≤ Complex.abs Z + 13.35 := by
    have h := Complex.abs.add_le Z (X - Z)
    rw [show Z + (X - Z) = X from by ring] at h
    calc Complex.abs X ≤ Complex.abs Z + Complex.abs (X - Z) := h
      _ ≤ Complex.abs Z + 13.35 := by linarith
  have hX15 : Complex.abs X ≤ 15 := by
    rw [hZ] at htri
    nlinarith
  rw [← Complex.sq_abs]
  nlinarith [Complex.abs.nonneg X]

/-- The magnitude spectrum computed by `decode_symbol` at the default
configuration for one transmitted symbol of `generate_symbol`. -/
noncomputable def symbol_spectrum (f : ℝ) (isf isl : Bool) : List ℂ :=
  dft (((generate_symbol ModulationConfig.default f isf isl).map
      (fun (s : ℝ) => (s : ℂ))) ++
    List.replicate
      (512 - (generate_symbol ModulationConfig.default f isf isl).length)
      0)

theorem spectrum0_peak (isf isl : Bool)
    (hnb : ¬(isf = true ∧ isl = true)) :
    (2704 : ℝ) ≤
      Complex.normSq ((symbol_spectrum 18000 isf isl).getD 209 0) := by
  have hclose := dft_symbol_close 18000 isf isl hnb 209 (by norm_num)
  rw [show ((209 : ℕ) : ℝ) = (209 : ℝ) from by norm_num] at hclose
  rw [show (2704 : ℝ) = 52 ^ 2 from by norm_num]
  unfold symbol_spectrum
  exact spectrum_peak_bound _ _ _ 52 1.8911 440 hclose G0_peak_plus
    G0_peak_minus (by norm_num) (by norm_num)

theorem spectrum0_side (isf isl : Bool)
    (hnb : ¬(isf = true ∧ isl = true)) (k : ℕ) (h1 : 229 ≤ k)
    (h2 : k ≤ 235) :
    Complex.normSq ((symbol_spectrum 18000 isf isl).getD k 0) ≤ 225 := by
  have hclose := dft_symbol_close 18000 isf isl hnb k (by omega)
  unfold symbol_spectrum
  exact spectrum_side_bound _ _ _ 2.54 8.217 hclose
    (G0_side_plus k h1 h2) (G0_side_minus k h1 h2) (by norm_num)

theorem spectrum1_peak (isf isl : Bool)
    (hnb : ¬(isf = true ∧ isl = true)) :
    (2209 : ℝ) ≤
      Complex.normSq ((symbol_spectrum 20000 isf isl).getD 232 0) := by
  have hclose := dft_symbol_close 20000 isf isl hnb 232 (by norm_num)
  rw [show ((232 : ℕ) : ℝ) = (232 : ℝ) from by norm_num] at hclose
  rw [show (2209 : ℝ) = 47 ^ 2 from by norm_num]
  unfold symbol_spectrum
  exact spectrum_peak_bound _ _ _ 47 3.486 408 hclose G1_peak_plus
    G1_peak_minus (by norm_num) (by norm_num)

theorem spectrum1_side (isf isl : Bool)
    (hnb : ¬(isf = true ∧ isl = true)) (k : ℕ) (h1 : 205 ≤ k)
    (h2 : k ≤ 211) :
    Complex.normSq ((symbol_spectrum 20000 isf isl).getD k 0) ≤ 225 := by
  have hclose := dft_symbol_close 20000 isf isl hnb k (by omega)
  unfold symbol_spectrum
  exact spectrum_side_bound _ _ _ 2.514 7.759 hclose
    (G1_side_plus k h1 h2) (G1_side_minus k h1 h2) (by norm_num)

theorem symbol_spectrum_length (f : ℝ) (isf isl : Bool) :
    (symbol_spectrum f isf isl).length = 512 := by
  unfold symbol_spectrum
  rw [dft_length, List.length_append, List.length_map,
    List.length_replicate, generate_symbol_length,
    samples_per_symbol_default]

theorem decode_symbol_eval0 (isf isl : Bool)
    (hnb : ¬(isf = true ∧ isl = true)) :
    decode_symbol ModulationConfig.default
      (generate_symbol ModulationConfig.default (18000 : ℝ) isf isl) =
      Except.ok false := by
  unfold decode_symbol
  rw [fft_size_default, freq_bin_default_0, freq_bin_default_1]
  have hlen : (generate_symbol ModulationConfig.default (18000 : ℝ)
      isf isl).length = 441 := by
    rw [generate_symbol_length, samples_per_symbol_default]
  rw [List.take_of_length_le (by
    rw [List.length_append, List.length_map, List.length_replicate, hlen])]
  have hspec : dft (List.map (fun (s : ℝ) => (s : ℂ))
      (generate_symbol ModulationConfig.default (18000 : ℝ) isf isl) ++
      List.replicate
        (512 -
          (generate_symbol ModulationConfig.default (18000 : ℝ)
            isf isl).length) 0) = symbol_spectrum 18000 isf isl := rfl
  simp only [hspec, symbol_spectrum_length]
  norm_num
  have hP0 : (2704 : ℝ) ≤ List.foldl max 0 (List.map
      (fun j => Complex.normSq
        (((symbol_spectrum 18000 isf isl)[205 + j]?).getD 0))
      (List.range 7)) := by
    refine le_trans (spectrum0_peak isf isl hnb) (le_foldl_max _ 0 _ ?_)
    refine List.mem_map.2 ⟨4, ?_, ?_⟩
    · simp
    · rw [List.getD_eq_getElem?_getD]
  have hP1 : List.foldl max 0 (List.map
      (fun j => Complex.normSq
        (((symbol_spectrum 18000 isf isl)[229 + j]?).getD 0))
      (List.range 7)) ≤ 225 := by
    refine foldl_max_le _ 0 225 (by norm_num) ?_
    intro x hx
    obtain ⟨j, hj, rfl⟩ := List.mem_map.1 hx
    have hj7 : j < 7 := List.mem_range.1 hj
    have hside := spectrum0_side isf isl hnb (229 + j) (by omega) (by omega)
    rw [List.getD_eq_getElem?_getD] at hside
    exact hside
  rw [if_neg (by
    intro hcontra
    linarith [hcontra.1])]
  rw [decide_eq_false (not_lt.2 (le_trans hP1
    (le_trans (by norm_num) hP0)))]

theorem decode_symbol_eval1 (isf isl : Bool)
    (hnb : ¬(isf = true ∧ isl = true)) :
    decode_symbol ModulationConfig.default
      (generate_symbol ModulationConfig.default (20000 : ℝ) isf isl) =
      Except.ok true := by
  unfold decode_symbol
  rw [fft_size_default, freq_bin_default_0, freq_bin_default_1]
  have hlen : (generate_symbol ModulationConfig.default (20000 : ℝ)
      isf isl).length = 441 := by
    rw [generate_symbol_length, samples_per_symbol_default]
  rw [List.take_of_length_le (by
    rw [List.length_append, List.length_map, List.length_replicate, hlen])]
  have hspec : dft (List.map (fun (s : ℝ) => (s : ℂ))
      (generate_symbol ModulationConfig.default (20000 : ℝ) isf isl) ++
      List.replicate
        (512 -
          (generate_symbol ModulationConfig.default (20000 : ℝ)
            isf isl).length) 0) = symbol_spectrum 20000 isf isl := rfl
  simp only [hspec, symbol_spectrum_length]
  norm_num
  have hP1 : (2209 : ℝ) ≤ List.foldl max 0 (List.map
      (fun j => Complex.normSq
        (((symbol_spectrum 20000 isf isl)[229 + j]?).getD 0))
      (List.range 7)) := by
    refine le_trans (spectrum1_peak isf isl hnb) (le_foldl_max _ 0 _ ?_)
    refine List.mem_map.2 ⟨3, ?_, ?_⟩
    · simp
    · rw [List.getD_eq_getElem?_getD]
  have hP0 : List.foldl max 0 (List.map
      (fun j => Complex.normSq
        (((symbol_spectrum 20000 isf isl)[205 + j]?).getD 0))
      (List.range 7)) ≤ 225 := by
    refine foldl_max_le _ 0 225 (by norm_num) ?_
    intro x hx
    obtain ⟨j, hj, rfl⟩ := List.mem_map.1 hx
    have hj7 : j < 7 := List.mem_range.1 hj
    have hside := spectrum1_side isf isl hnb (205 + j) (by omega) (by omega)
    rw [List.getD_eq_getElem?_getD] at hside
    exact hside
  rw [if_neg (by
    intro hcontra
    linarith [hcontra.2])]
  rw [decide_eq_true (lt_of_le_of_lt hP0
    (lt_of_lt_of_le (by norm_num) hP1))]

theorem mapM_ok_of_forall {α β : Type} (l : List α)
    (f : α → Except UshError β) (g : α → β)
    (h : ∀ x ∈ l, f x = Except.ok (g x)) :
    l.mapM f = Except.ok (l.map g) := by
  induction l with
  | nil => rfl
  | cons a t ih =>
    rw [List.mapM_cons, h a (by simp),
      ih (fun x hx => h x (by simp [hx]))]
    rfl

theorem range_map_getD {α : Type} (l : List α) (d : α) :
    (List.range l.length).map (fun i => l.getD i d) = l := by
  refine List.ext_getElem (by simp) ?_
  intro i h1 h2
  simp only [List.getElem_map, List.getElem_range]
  rw [List.getD_eq_getElem _ _ h2]

set_option maxRecDepth 8000 in
theorem byte_from_bits_range (b : ℕ) (hb : b < 256) :
    byte_from_bits
      ((List.range 8).map (fun j => (b >>> (7 - j)) &&& 1 == 1)) = b := by
  revert hb
  revert b
  decide

theorem chunks_map_roundtrip (d : List ℕ) (hb : ∀ b ∈ d, b < 256) :
    (chunks_exact_8 (bytes_to_bits d)).map byte_from_bits = d := by
  induction d with
  | nil => rfl
  | cons b t ih =>
    rw [bytes_to_bits_cons]
    rw [show (List.range 8).map (fun j => (b >>> (7 - j)) &&& 1 == 1) =
      [b >>> 7 &&& 1 == 1, b >>> 6 &&& 1 == 1, b >>> 5 &&& 1 == 1,
        b >>> 4 &&& 1 == 1, b >>> 3 &&& 1 == 1, b >>> 2 &&& 1 == 1,
        b >>> 1 &&& 1 == 1, b >>> 0 &&& 1 == 1] from rfl]
    rw [List.cons_append, List.cons_append, List.cons_append,
      List.cons_append, List.cons_append, List.cons_append,
      List.cons_append, List.cons_append, List.nil_append]
    rw [chunks_exact_8]
    rw [List.map_cons]
    rw [ih (fun x hx => hb x (by simp [hx]))]
    congr 1
    have h := byte_from_bits_range b (hb b (by simp))
    rw [show (List.range 8).map (fun j => (b >>> (7 - j)) &&& 1 == 1) =
      [b >>> 7 &&& 1 == 1, b >>> 6 &&& 1 == 1, b >>> 5 &&& 1 == 1,
        b >>> 4 &&& 1 == 1, b >>> 3 &&& 1 == 1, b >>> 2 &&& 1 == 1,
        b >>> 1 &&& 1 == 1, b >>> 0 &&& 1 == 1] from rfl] at h
    exact h

theorem encode_bytes_window (d : List ℕ) (i : ℕ) (hi : i < 8 * d.length) :
    ((encode_bytes ModulationConfig.default d).drop (i * 441)).take 441 =
      generate_symbol ModulationConfig.default
        (if (bytes_to_bits d).getD i false then
            ((ModulationConfig.default.freq_1 : ℚ) : ℝ)
          else ((ModulationConfig.default.freq_0 : ℚ) : ℝ))
        (i == 0) (i == (bytes_to_bits d).length - 1) := by
  have hk2 : i < (bytes_to_bits d).length := by
    rw [bytes_to_bits_length]
    omega
  rw [encode_bytes, encode_bits]
  rw [show (441 : ℕ) = samples_per_symbol ModulationConfig.default from
    samples_per_symbol_default.symm]
  rw [flatten_drop_take (samples_per_symbol ModulationConfig.default) _ i
    (fun x hx => by
      obtain ⟨p, hp, rfl⟩ := List.mem_map.1 hx
      exact generate_symbol_length _ _ _ _)
    (by simp only [List.length_map, List.enum_length]; omega)]
  rw [enum_map_getD _ _ i hk2 [] false]

theorem decode_symbol_window (d : List ℕ) (hd : d ≠ []) (i : ℕ)
    (hi : i < 8 * d.length) :
    decode_symbol ModulationConfig.default
      (((encode_bytes ModulationConfig.default d).drop (i * 441)).take
        441) =
      Except.ok ((bytes_to_bits d).getD i false) := by
  rw [encode_bytes_window d i hi]
  have hdlen : 1 ≤ d.length := by
    rcases d with _ | ⟨b, t⟩
    · exact absurd rfl hd
    · simp
  have hnb : ¬((i == 0) = true ∧
      (i == (bytes_to_bits d).length - 1) = true) := by
    rw [bytes_to_bits_length]
    intro hcontra
    rw [beq_iff_eq] at hcontra
    rcases hcontra with ⟨h1, h2⟩
    rw [beq_iff_eq] at h2
    omega
  have hf0 : ((ModulationConfig.default.freq_0 : ℚ) : ℝ) = 18000 := by
    norm_num [ModulationConfig.default]
  have hf1 : ((ModulationConfig.default.freq_1 : ℚ) : ℝ) = 20000 := by
    norm_num [ModulationConfig.default]
  rcases hbit : (bytes_to_bits d).getD i false with _ | _
  · rw [if_neg (by simp), hf0]
    exact decode_symbol_eval0 _ _ hnb
  · rw [if_pos rfl, hf1]
    exact decode_symbol_eval1 _ _ hnb

theorem decode_encode_bits (d : List ℕ) :
    decode_samples ModulationConfig.default
      (encode_bytes ModulationConfig.default d) =
      Except.ok (bytes_to_bits d) := by
  have hlen : (encode_bytes ModulationConfig.default d).length =
      8 * d.length * 441 := by
    rw [encode_bytes, encode_bits_length, bytes_to_bits_length,
      samples_per_symbol_default]
  unfold decode_samples
  simp only [samples_per_symbol_default, hlen]
  rw [if_neg (by simp [Nat.mul_mod_left])]
  rw [Nat.mul_div_cancel _ (by norm_num : (0 : ℕ) < 441)]
  rw [mapM_ok_of_forall _ _ (fun i => (bytes_to_bits d).getD i false)
    (fun i hi => decode_symbol_window d
      (by
        rintro rfl
        rw [List.mem_range] at hi
        simp at hi)
      i (by
        rw [List.mem_range] at hi
        exact hi))]
  rw [show 8 * d.length = (bytes_to_bits d).length from
    (bytes_to_bits_length d).symm]
  rw [range_map_getD]

/-- C1: at the default configuration (44100 Hz, freq_0 = 18000,
freq_1 = 20000, 10 ms symbols, 2 ms ramps), decoding the modulated samples
of any byte sequence of at most 1024 bytes over a noise-free channel
returns exactly the original bytes:
`decode_bytes (encode_bytes d) = Except.ok d`. -/
theorem C1_byte_round_trip (d : List ℕ) (hbytes : ∀ b ∈ d, b < 256)
    (hlen : d.length ≤ 1024) :
    decode_bytes ModulationConfig.default
      (encode_bytes ModulationConfig.default d) = Except.ok d := by
  unfold decode_bytes
  rw [decode_encode_bits d]
  show (if (bytes_to_bits d).length % 8 ≠ 0 then _ else _) = _
  rw [if_neg (by
    rw [bytes_to_bits_length]
    simp [Nat.mul_mod_right])]
  rw [chunks_map_roundtrip d hbytes]

/-- Witness for C1: the single byte 0x48 round-trips. -/
theorem C1_witness :
    (∀ b ∈ [72], b < 256) ∧ ([72] : List ℕ).length ≤ 1024 ∧
      decode_bytes ModulationConfig.default
        (encode_bytes ModulationConfig.default [72]) = Except.ok [72] :=
  ⟨by decide, by decide,
    C1_byte_round_trip [72] (by decide) (by decide)⟩
